import Mathlib

/-!
Shallow Lean embedding of the vendored GraphQL runtime of this repository
(`graphql/core/type/definition.py`, `graphql/core/execution/base.py`) and of
the Relay global-id helpers (`graphql_relay/node/node.py`,
`graphql_relay/utils.py`), together with theorems settling the frozen claims
about the natural-language specification.

Modelling conventions:
* Python strings are modelled as lists of Unicode code points (`List Nat`)
  where byte-level behaviour matters (the Relay helpers), and as Lean
  `String` elsewhere.
* Python runtime values that flow through argument coercion, truthiness tests
  and enum lookups are modelled by the inductive `PyValue`; an unhashable
  object (such as a list) is represented opaquely by `PyValue.vUnhashable`.
* Code that raises is modelled with `Except PyError`; an `assert` that fails
  becomes `PyError.assertionError`, an attribute access on `None` becomes
  `PyError.attributeError`, and so on.
-/

namespace GraphQLSpec

/-- Python exceptions that the embedded code can raise. -/
inductive PyError where
  | attributeError (msg : String)
  | valueError (msg : String)
  | typeError (msg : String)
  | assertionError (msg : String)
  | graphQLError (msg : String)
deriving DecidableEq, Repr

/-- A Python runtime value, as far as the embedded code inspects one:
`None`, booleans, integers, strings, and an opaque stand-in for any
unhashable object (a list, a dict, ...) identified by a tag. -/
inductive PyValue where
  | vNone
  | vBool (b : Bool)
  | vInt (i : Int)
  | vStr (s : String)
  | vUnhashable (tag : Nat)
deriving DecidableEq, Repr

/-- Python `==` identifies `False` with `0` and `True` with `1`; we model
this by canonicalising booleans to integers before comparing. -/
def pyCanon : PyValue → PyValue
  | .vBool b => .vInt (if b then 1 else 0)
  | v => v

/-- Python `==` on the modelled fragment of values. -/
def pyEq (a b : PyValue) : Bool := pyCanon a = pyCanon b

/-- Python `isinstance(v, collections.Hashable)`. -/
def pyHashable : PyValue → Bool
  | .vUnhashable _ => false
  | _ => true

/-- Python truthiness (`bool(v)`) on the modelled values; a generic object
is truthy. -/
def pyTruthy : PyValue → Bool
  | .vNone => false
  | .vBool b => b
  | .vInt i => i ≠ 0
  | .vStr s => s ≠ ""
  | .vUnhashable _ => true

/-- Truthiness of the result of `dict.get`: `None` (missing key) is falsy. -/
def pyTruthyOpt : Option PyValue → Bool
  | none => false
  | some v => pyTruthy v

/-! ## The type system (`graphql/core/type/definition.py`)

One value of `GType` per constructed `GraphQLType` object.  Named types
carry their name; `interface` and `union` additionally carry the names of
their possible (concrete object) types, standing in for the mutable
`_impls` registry resp. the resolved union member list of the source.
`list` and `nonNull` are the two wrapping types. -/
inductive GType where
  | scalar (name : String)
  | object (name : String)
  | interface (name : String) (possibleTypeNames : List String)
  | union (name : String) (possibleTypeNames : List String)
  | enum (name : String)
  | inputObject (name : String)
  | list (of_type : GType)
  | nonNull (of_type : GType)
deriving DecidableEq, Repr

/-- `is_type`: `isinstance` test against the eight `GraphQLType` classes;
every inhabitant of `GType` is one of them. -/
def is_type : GType → Bool
  | .scalar _ | .object _ | .interface _ _ | .union _ _
  | .enum _ | .inputObject _ | .list _ | .nonNull _ => true

/-- `get_named_type`: strip every `List` / `NonNull` wrapper. -/
def get_named_type : GType → GType
  | .list t => get_named_type t
  | .nonNull t => get_named_type t
  | t => t

/-- `get_nullable_type`: strip one `NonNull` wrapper if present. -/
def get_nullable_type : GType → GType
  | .nonNull t => t
  | t => t

/-- `is_input_type`: the named type is Scalar, Enum or InputObject. -/
def is_input_type (t : GType) : Bool :=
  match get_named_type t with
  | .scalar _ | .enum _ | .inputObject _ => true
  | _ => false

/-- `is_output_type`: the named type is Scalar, Object, Interface, Union
or Enum. -/
def is_output_type (t : GType) : Bool :=
  match get_named_type t with
  | .scalar _ | .object _ | .interface _ _ | .union _ _ | .enum _ => true
  | _ => false

/-- `is_leaf_type`: the named type is Scalar or Enum. -/
def is_leaf_type (t : GType) : Bool :=
  match get_named_type t with
  | .scalar _ | .enum _ => true
  | _ => false

/-- `is_composite_type`: the named type is Object, Interface or Union. -/
def is_composite_type (t : GType) : Bool :=
  match get_named_type t with
  | .object _ | .interface _ _ | .union _ _ => true
  | _ => false

/-- `is_abstract_type`: an `isinstance` test directly on the argument —
the source does NOT call `get_named_type` here. -/
def is_abstract_type : GType → Bool
  | .interface _ _ | .union _ _ => true
  | _ => false

/-- Is the argument itself a `GraphQLNonNull` instance? -/
def isNonNullType : GType → Bool
  | .nonNull _ => true
  | _ => false

/-- `GraphQLList.__init__`: asserts `is_type(type)`. -/
def GraphQLList_init (t : GType) : Except PyError GType :=
  if is_type t then .ok (.list t)
  else .error (.assertionError "Can only create List of a GraphQLType")

/-- `GraphQLNonNull.__init__`: asserts `is_type(type) and not
isinstance(type, GraphQLNonNull)`. -/
def GraphQLNonNull_init (t : GType) : Except PyError GType :=
  if is_type t && !isNonNullType t then .ok (.nonNull t)
  else .error (.assertionError "Can only create NonNull of a Nullable GraphQLType")

/-- `__str__` of a type: a named type renders as its name, `GraphQLList`
as `[inner]`, `GraphQLNonNull` as `inner!`. -/
def gtype_str : GType → String
  | .scalar n => n
  | .object n => n
  | .interface n _ => n
  | .union n _ => n
  | .enum n => n
  | .inputObject n => n
  | .list t => "[" ++ gtype_str t ++ "]"
  | .nonNull t => gtype_str t ++ "!"

/-! ## Theorems for claims C2 and C6 -/

/-- C2: `GraphQLNonNull(t)` raises whenever `t` is itself a `GraphQLNonNull`;
`GraphQLNonNull(GraphQLList(t))` always constructs and renders as `[T]!`;
and, for every `t` accepted by `GraphQLNonNull` (i.e. not itself a NonNull),
`GraphQLList(GraphQLNonNull(t))` constructs and renders as `[T!]`, where `T`
is the rendering of `t`. -/
theorem claim_C2 (t : GType) :
    (GraphQLNonNull_init (.nonNull t) =
      .error (.assertionError "Can only create NonNull of a Nullable GraphQLType")) ∧
    (GraphQLList_init t = .ok (.list t) ∧
      GraphQLNonNull_init (.list t) = .ok (.nonNull (.list t)) ∧
      gtype_str (.nonNull (.list t)) = "[" ++ gtype_str t ++ "]" ++ "!") ∧
    (isNonNullType t = false →
      GraphQLNonNull_init t = .ok (.nonNull t) ∧
      GraphQLList_init (.nonNull t) = .ok (.list (.nonNull t)) ∧
      gtype_str (.list (.nonNull t)) = "[" ++ gtype_str t ++ "!" ++ "]") := by
  refine ⟨?_, ⟨?_, ?_, ?_⟩, fun h => ⟨?_, ?_, ?_⟩⟩
  · simp [GraphQLNonNull_init, is_type, isNonNullType]
  · cases t <;> simp [GraphQLList_init, is_type]
  · cases t <;> simp [GraphQLNonNull_init, is_type, isNonNullType]
  · simp [gtype_str]
  · cases t <;> simp_all [GraphQLNonNull_init, is_type, isNonNullType]
  · simp [GraphQLList_init, is_type]
  · simp [gtype_str, String.append_assoc]

/-- Witness for C2 at the concrete scalar type `T`: the renderings are
literally `"[T]!"` and `"[T!]"`. -/
theorem claim_C2_witness :
    (GraphQLNonNull_init (.nonNull (.scalar "T")) =
      .error (.assertionError "Can only create NonNull of a Nullable GraphQLType")) ∧
    gtype_str (.nonNull (.list (.scalar "T"))) = "[T]!" ∧
    gtype_str (.list (.nonNull (.scalar "T"))) = "[T!]" := by
  have h := claim_C2 (.scalar "T")
  exact ⟨h.1, by simpa using h.2.1.2.2, by simpa using (h.2.2 (by decide)).2.2⟩

/-- C6 counterexample: `is_abstract_type` is NOT invariant under wrapping —
on the interface type `I` it returns `true`, yet on `GraphQLList(I)` it
returns `false`, refuting the claim that each of the five predicates
returns the same result on `t` and on `GraphQLList(t)`. -/
theorem claim_C6_counterexample :
    ¬ (is_abstract_type (.list (.interface "I" [])) =
       is_abstract_type (.interface "I" [])) := by
  decide

/-- C6 (amended): `is_input_type`, `is_output_type`, `is_leaf_type` and
`is_composite_type` depend only on the named type obtained by stripping
List/NonNull wrappers, hence agree on `t`, `GraphQLList(t)` and
`GraphQLNonNull(t)`; `is_abstract_type`, by contrast, tests its argument
directly and returns `false` on every `GraphQLList` or `GraphQLNonNull`
wrapper. -/
theorem claim_C6 (t : GType) :
    (is_input_type (.list t) = is_input_type t ∧
     is_input_type (.nonNull t) = is_input_type t) ∧
    (is_output_type (.list t) = is_output_type t ∧
     is_output_type (.nonNull t) = is_output_type t) ∧
    (is_leaf_type (.list t) = is_leaf_type t ∧
     is_leaf_type (.nonNull t) = is_leaf_type t) ∧
    (is_composite_type (.list t) = is_composite_type t ∧
     is_composite_type (.nonNull t) = is_composite_type t) ∧
    (is_abstract_type (.list t) = false ∧
     is_abstract_type (.nonNull t) = false) := by
  refine ⟨⟨rfl, rfl⟩, ⟨rfl, rfl⟩, ⟨rfl, rfl⟩, ⟨rfl, rfl⟩, rfl, rfl⟩

/-! ## Argument values and directives
(`graphql/core/execution/base.py`, `should_include_node`)

The coercion helper `get_argument_values` lives in
`graphql/core/execution/values.py`, which is not among the vendored source
files; it is modelled from the spec below. -/

/-- An AST value node appearing in an argument position: a literal, or a
variable reference resolved against the bound vars. -/
inductive ValueNode where
  | booleanValue (b : Bool)
  | intValue (i : Int)
  | stringValue (s : String)
  | variableRef (name : String)
deriving DecidableEq, Repr

/-- An argument definition (`GraphQLArgument`): a name, a declared input
type and an optional default value. -/
structure ArgDef where
  name : String
  type : GType
  default_value : Option PyValue
deriving DecidableEq, Repr

/-- A directive definition (`GraphQLDirective`): a name and its argument
definitions. -/
structure DirectiveDef where
  name : String
  args : List ArgDef
deriving DecidableEq, Repr

/-- Modelled from the spec: the builtin `@skip` directive
(`graphql/core/type/directives.py` is not vendored), with its single
non-null boolean argument `if`. -/
def GraphQLSkipDirective : DirectiveDef :=
  ⟨"skip", [⟨"if", .nonNull (.scalar "Boolean"), none⟩]⟩

/-- Modelled from the spec: the builtin `@include` directive, with its
single non-null boolean argument `if`. -/
def GraphQLIncludeDirective : DirectiveDef :=
  ⟨"include", [⟨"if", .nonNull (.scalar "Boolean"), none⟩]⟩

/-- A directive AST node: a name and named argument nodes. -/
structure DirectiveNode where
  name : String
  arguments : List (String × ValueNode)
deriving DecidableEq, Repr

/-- Modelled from the spec: coercion of one AST value node (spec 4.2) — a
literal is taken at its value, a variable reference is resolved against the
bound vars instead of being parsed as a literal. -/
def coerce_value_node (vars : List (String × PyValue)) :
    ValueNode → Option PyValue
  | .booleanValue b => some (.vBool b)
  | .intValue i => some (.vInt i)
  | .stringValue s => some (.vStr s)
  | .variableRef n => vars.lookup n

/-- Modelled from the spec: `get_argument_values` of the non-vendored
`graphql/core/execution/values.py` (spec 4.2) — for each declared argument,
coerce the matching AST argument node if present, else fall back to the
declared default; an argument with neither is omitted from the mapping. -/
def get_argument_values (arg_defs : List ArgDef)
    (arg_asts : List (String × ValueNode))
    (vars : List (String × PyValue)) : List (String × PyValue) :=
  arg_defs.filterMap fun d =>
    match arg_asts.lookup d.name with
    | some vn => (coerce_value_node vars vn).map fun v => (d.name, v)
    | none => d.default_value.map fun v => (d.name, v)

/-- `should_include_node`: `@skip` is looked for first and, when present,
alone decides inclusion (`not args.get('if')`); only when no `@skip`
directive exists is `@include` consulted (`bool(args.get('if'))`); with
neither directive the node is included. -/
def should_include_node (vars : List (String × PyValue))
    (directives : List DirectiveNode) : Bool :=
  match directives.find? (fun d => d.name == GraphQLSkipDirective.name) with
  | some skip_ast =>
      let args := get_argument_values GraphQLSkipDirective.args
        skip_ast.arguments vars
      !(pyTruthyOpt (args.lookup "if"))
  | none =>
      match directives.find? (fun d => d.name == GraphQLIncludeDirective.name) with
      | some include_ast =>
          let args := get_argument_values GraphQLIncludeDirective.args
            include_ast.arguments vars
          pyTruthyOpt (args.lookup "if")
      | none => true

/-- The coerced boolean `if` argument of a `@skip` or `@include` directive
node, as `should_include_node` reads it off the coerced mapping. -/
def coercedIfArg (dd : DirectiveDef) (dn : DirectiveNode)
    (vars : List (String × PyValue)) : Option PyValue :=
  (get_argument_values dd.args dn.arguments vars).lookup "if"

/-- C3: when a `@skip` directive is present among a selection's directives,
`should_include_node` is decided by the (first) `@skip` directive alone —
in particular a truthy coerced `@skip` `if` argument excludes the node no
matter what `@include` says — and `@include` is consulted exactly when no
`@skip` directive is present. -/
theorem claim_C3 (vars : List (String × PyValue))
    (directives : List DirectiveNode) :
    (∀ skip_ast,
      directives.find? (fun d => d.name == GraphQLSkipDirective.name) = some skip_ast →
      should_include_node vars directives =
        !(pyTruthyOpt (coercedIfArg GraphQLSkipDirective skip_ast vars))) ∧
    (∀ skip_ast,
      directives.find? (fun d => d.name == GraphQLSkipDirective.name) = some skip_ast →
      pyTruthyOpt (coercedIfArg GraphQLSkipDirective skip_ast vars) = true →
      should_include_node vars directives = false) ∧
    (directives.find? (fun d => d.name == GraphQLSkipDirective.name) = none →
      ∀ include_ast,
      directives.find? (fun d => d.name == GraphQLIncludeDirective.name) = some include_ast →
      should_include_node vars directives =
        pyTruthyOpt (coercedIfArg GraphQLIncludeDirective include_ast vars)) := by
  refine ⟨fun skip_ast hs => ?_, fun skip_ast hs ht => ?_, fun hn include_ast hi => ?_⟩
  · simp [should_include_node, hs, coercedIfArg]
  · simp [should_include_node, hs, coercedIfArg] at ht ⊢
    simp [ht]
  · simp [should_include_node, hn, hi, coercedIfArg]

/-- Witness for C3: a selection carrying both `@skip(if: true)` and
`@include(if: true)` is excluded, and with the `@skip` directive removed the
same `@include` directive includes it. -/
theorem claim_C3_witness :
    should_include_node []
      [⟨"skip", [("if", .booleanValue true)]⟩,
       ⟨"include", [("if", .booleanValue true)]⟩] = false ∧
    should_include_node []
      [⟨"include", [("if", .booleanValue true)]⟩] = true := by
  constructor
  · exact (claim_C3 [] [⟨"skip", [("if", .booleanValue true)]⟩,
      ⟨"include", [("if", .booleanValue true)]⟩]).2.1
      ⟨"skip", [("if", .booleanValue true)]⟩ (by decide) (by decide)
  · have h := (claim_C3 [] [⟨"include", [("if", .booleanValue true)]⟩]).2.2
      (by decide) ⟨"include", [("if", .booleanValue true)]⟩ (by decide)
    simpa using h

/-! ## Query AST (`graphql/core/language/ast.py`, the parts the executor
reads) -/

/-- A selection inside a selection set: a field (with optional alias), an
inline fragment, or a fragment spread.  Sub-selection sets are carried
inline as selection lists. -/
inductive Selection where
  | field (aliasName : Option String) (name : String)
      (directives : List DirectiveNode)
  | inlineFragment (type_condition : Option String)
      (directives : List DirectiveNode) (selections : List Selection)
  | fragmentSpread (name : String) (directives : List DirectiveNode)

/-- A `FragmentDefinition`: type condition, directives and selection set. -/
structure FragmentDef where
  type_condition : Option String
  directives : List DirectiveNode
  selections : List Selection

/-- A variable definition node of an operation (opaque to the scan loop). -/
structure VarDef where
  name : String
deriving DecidableEq, Repr

/-- The payload of an `OperationDefinition` that `ExecutionContext.__init__`
inspects: the optional operation name and the variable definitions. -/
structure OperationDef where
  name : Option String
  variable_definitions : List VarDef
deriving DecidableEq, Repr

/-- A top-level definition of the document. -/
inductive GDefinition where
  | operationDefinition (op : OperationDef)
  | fragmentDefinition (name : String) (fragment : FragmentDef)
  | otherDefinition (className : String)

/-- `dict[k] = v`: overwrite the value at an existing key, else append. -/
def dictSet {β : Type} (m : List (String × β)) (k : String) (v : β) :
    List (String × β) :=
  if m.any (fun p => p.1 == k) then
    m.map (fun p => if p.1 == k then (k, v) else p)
  else m ++ [(k, v)]

/-! ## The execution context (`ExecutionContext.__init__`,
`ExecutionContext.get_argument_values`) -/

/-- The part of a field definition that the per-context argument cache
keys on and reads: its argument definitions. -/
structure FieldDefL where
  args : List ArgDef
deriving DecidableEq, Repr

/-- The part of a field AST node that the per-context argument cache keys
on and reads: its argument nodes. -/
structure FieldAstL where
  arguments : List (String × ValueNode)
deriving DecidableEq, Repr

/-- The context constructed once per request. -/
structure ExecutionContext where
  schema : List (String × GType)
  fragments : List (String × FragmentDef)
  root : PyValue
  operation : OperationDef
  vars : List (String × PyValue)
  errors : List PyError
  request_context : PyValue
  argument_values_cache :
    List ((FieldDefL × FieldAstL) × List (String × PyValue))

/-- The definition-scanning loop of `ExecutionContext.__init__`: an
`OperationDefinition` raises when a second operation is met with no
operation name supplied, is selected when no name is required or its own
name matches; a `FragmentDefinition` is indexed by name; any other
definition kind raises. -/
def contextScanDefinitions (operation_name : Option String) :
    List GDefinition → Option OperationDef → List (String × FragmentDef) →
    Except PyError (Option OperationDef × List (String × FragmentDef))
  | [], operation, fragments => .ok (operation, fragments)
  | d :: rest, operation, fragments =>
    match d with
    | .operationDefinition opdef =>
        if operation_name.isNone && operation.isSome then
          .error (.graphQLError
            "Must provide operation name if query contains multiple operations.")
        else if operation_name.isNone ||
            (opdef.name.isSome && opdef.name == operation_name) then
          contextScanDefinitions operation_name rest (some opdef) fragments
        else
          contextScanDefinitions operation_name rest operation fragments
    | .fragmentDefinition n f =>
        contextScanDefinitions operation_name rest operation (dictSet fragments n f)
    | .otherDefinition cls =>
        .error (.graphQLError
          ("GraphQL cannot execute a request containing a " ++ cls ++ "."))

/-- `ExecutionContext.__init__`: scan the document's definitions, fail when
no operation was selected, then bind the variables and assemble the context
(fresh error list, fresh argument-values cache).  `get_variable_values`
lives in the non-vendored `values.py` and is taken as a parameter. -/
def ExecutionContext_init
    (get_variable_values :
      List VarDef → List (String × PyValue) → Except PyError (List (String × PyValue)))
    (schema : List (String × GType)) (root : PyValue)
    (document_definitions : List GDefinition)
    (operation_name : Option String)
    (args : List (String × PyValue)) (request_context : PyValue) :
    Except PyError ExecutionContext := do
  let (operation, fragments) ←
    contextScanDefinitions operation_name document_definitions none []
  match operation with
  | none =>
    match operation_name with
    | some n => .error (.graphQLError ("Unknown operation named " ++ n ++ "."))
    | none => .error (.graphQLError "Must provide an operation.")
  | some op => do
    let vars ← get_variable_values op.variable_definitions args
    .ok ⟨schema, fragments, root, op, vars, [], request_context, []⟩

/-- Is this `Except` an error (a raised exception)? -/
def exceptIsError {ε α : Type} : Except ε α → Bool
  | .error _ => true
  | .ok _ => false

/-- How many `OperationDefinition`s the document contains. -/
def countOperationDefinitions (defs : List GDefinition) : Nat :=
  (defs.filter fun d =>
    match d with | .operationDefinition _ => true | _ => false).length

/-- Does this definition match the supplied operation name? -/
def matchesOperationName (n : String) : GDefinition → Bool
  | .operationDefinition op => op.name == some n
  | _ => false

theorem contextScan_error_of_some (operation_name : Option String)
    (hn : operation_name = none) :
    ∀ (defs : List GDefinition) (cur : Option OperationDef)
      (frags : List (String × FragmentDef)),
    1 ≤ countOperationDefinitions defs → cur.isSome = true →
    exceptIsError (contextScanDefinitions operation_name defs cur frags) = true := by
  subst hn
  intro defs
  induction defs with
  | nil => intro cur frags h; simp [countOperationDefinitions] at h
  | cons d rest ih =>
    intro cur frags h hcur
    cases d with
    | operationDefinition opdef =>
        simp [contextScanDefinitions, hcur, exceptIsError]
    | fragmentDefinition n f =>
        simp [contextScanDefinitions]
        exact ih _ _ (by simpa [countOperationDefinitions] using h) hcur
    | otherDefinition cls =>
        simp [contextScanDefinitions, exceptIsError]

theorem contextScan_error_of_two (defs : List GDefinition) :
    ∀ (frags : List (String × FragmentDef)),
    2 ≤ countOperationDefinitions defs →
    exceptIsError (contextScanDefinitions none defs none frags) = true := by
  induction defs with
  | nil => intro frags h; simp [countOperationDefinitions] at h
  | cons d rest ih =>
    intro frags h
    cases d with
    | operationDefinition opdef =>
        simp only [contextScanDefinitions, Option.isNone_none, Option.isSome_none,
          Bool.and_false, Bool.false_eq_true, if_false, Bool.true_or, if_true]
        exact contextScan_error_of_some none rfl rest (some opdef) frags
          (by simp [countOperationDefinitions] at h ⊢; omega) rfl
    | fragmentDefinition n f =>
        simp only [contextScanDefinitions]
        exact ih _ (by simpa [countOperationDefinitions] using h)
    | otherDefinition cls =>
        simp [contextScanDefinitions, exceptIsError]

theorem contextScan_none_of_no_match (n : String) (defs : List GDefinition) :
    ∀ (frags : List (String × FragmentDef)),
    (∀ d ∈ defs, matchesOperationName n d = false) →
    (∃ frags2, contextScanDefinitions (some n) defs none frags = .ok (none, frags2)) ∨
    exceptIsError (contextScanDefinitions (some n) defs none frags) = true := by
  induction defs with
  | nil => intro frags _; exact .inl ⟨frags, rfl⟩
  | cons d rest ih =>
    intro frags h
    cases d with
    | operationDefinition opdef =>
        have hm : (opdef.name == some n) = false := by
          simpa [matchesOperationName] using h _ (List.mem_cons_self _ _)
        simp only [contextScanDefinitions, Option.isNone_some, Bool.false_and,
          Bool.false_eq_true, if_false, Bool.false_or]
        rw [if_neg (by simp [hm])]
        exact ih frags (fun d hd => h d (List.mem_cons_of_mem _ hd))
    | fragmentDefinition nm f =>
        simp only [contextScanDefinitions]
        exact ih _ (fun d hd => h d (List.mem_cons_of_mem _ hd))
    | otherDefinition cls =>
        exact .inr (by simp [contextScanDefinitions, exceptIsError])

theorem contextScan_none_of_no_ops (operation_name : Option String)
    (defs : List GDefinition) :
    ∀ (frags : List (String × FragmentDef)),
    countOperationDefinitions defs = 0 →
    (∃ frags2,
      contextScanDefinitions operation_name defs none frags = .ok (none, frags2)) ∨
    exceptIsError (contextScanDefinitions operation_name defs none frags) = true := by
  induction defs with
  | nil => intro frags _; exact .inl ⟨frags, rfl⟩
  | cons d rest ih =>
    intro frags h
    cases d with
    | operationDefinition opdef =>
        simp [countOperationDefinitions] at h
    | fragmentDefinition nm f =>
        simp only [contextScanDefinitions]
        exact ih _ (by simpa [countOperationDefinitions] using h)
    | otherDefinition cls =>
        exact .inr (by simp [contextScanDefinitions, exceptIsError])

/-- C4: `ExecutionContext.__init__` raises a `GraphQLError` (so no context
— and hence no data — is ever produced) when (a) the document holds two or
more `OperationDefinition`s and no operation name is supplied, (b) an
operation name is supplied but matches no definition, or (c) the document
holds no operation at all. -/
theorem claim_C4
    (get_variable_values :
      List VarDef → List (String × PyValue) → Except PyError (List (String × PyValue)))
    (schema : List (String × GType)) (root : PyValue)
    (args : List (String × PyValue)) (request_context : PyValue)
    (defs : List GDefinition) :
    (2 ≤ countOperationDefinitions defs →
      exceptIsError (ExecutionContext_init get_variable_values schema root defs
        none args request_context) = true) ∧
    (∀ n, (∀ d ∈ defs, matchesOperationName n d = false) →
      exceptIsError (ExecutionContext_init get_variable_values schema root defs
        (some n) args request_context) = true) ∧
    (countOperationDefinitions defs = 0 →
      ∀ operation_name,
      exceptIsError (ExecutionContext_init get_variable_values schema root defs
        operation_name args request_context) = true) := by
  refine ⟨fun h => ?_, fun n h => ?_, fun h operation_name => ?_⟩
  · have hs := contextScan_error_of_two defs [] h
    unfold ExecutionContext_init
    cases hr : contextScanDefinitions none defs none [] with
    | error e => simp [hr, exceptIsError, Bind.bind, Except.bind]
    | ok v => rw [hr] at hs; simp [exceptIsError] at hs
  · rcases contextScan_none_of_no_match n defs [] h with ⟨frags2, hok⟩ | herr
    · unfold ExecutionContext_init
      rw [hok]
      simp [exceptIsError, Bind.bind, Except.bind]
    · unfold ExecutionContext_init
      cases hr : contextScanDefinitions (some n) defs none [] with
      | error e => simp [hr, exceptIsError, Bind.bind, Except.bind]
      | ok v => rw [hr] at herr; simp [exceptIsError] at herr
  · rcases contextScan_none_of_no_ops operation_name defs [] h with ⟨frags2, hok⟩ | herr
    · unfold ExecutionContext_init
      rw [hok]
      cases operation_name <;> simp [exceptIsError, Bind.bind, Except.bind]
    · unfold ExecutionContext_init
      cases hr : contextScanDefinitions operation_name defs none [] with
      | error e => simp [hr, exceptIsError, Bind.bind, Except.bind]
      | ok v => rw [hr] at herr; simp [exceptIsError] at herr

/-- Witness for C4 at concrete documents: two anonymous operations with no
name supplied; one named operation `a` queried as `b`; and an empty
document. -/
theorem claim_C4_witness :
    exceptIsError (ExecutionContext_init (fun _ _ => .ok []) [] .vNone
      [.operationDefinition ⟨none, []⟩, .operationDefinition ⟨none, []⟩]
      none [] .vNone) = true ∧
    exceptIsError (ExecutionContext_init (fun _ _ => .ok []) [] .vNone
      [.operationDefinition ⟨some "a", []⟩] (some "b") [] .vNone) = true ∧
    exceptIsError (ExecutionContext_init (fun _ _ => .ok []) [] .vNone
      [] none [] .vNone) = true := by
  refine ⟨?_, ?_, ?_⟩
  · exact (claim_C4 (fun _ _ => .ok []) [] .vNone [] .vNone
      [.operationDefinition ⟨none, []⟩, .operationDefinition ⟨none, []⟩]).1
      (by decide)
  · exact (claim_C4 (fun _ _ => .ok []) [] .vNone [] .vNone
      [.operationDefinition ⟨some "a", []⟩]).2.1 "b" (by decide)
  · exact (claim_C4 (fun _ _ => .ok []) [] .vNone [] .vNone []).2.2 (by decide) none

/-- The per-context argument-values cache together with a count of how
often the underlying coercion (`get_argument_values`) has run — the count
instruments the embedding so that "computed at most once" is statable. -/
structure ArgCacheState where
  argument_values_cache :
    List ((FieldDefL × FieldAstL) × List (String × PyValue))
  compute_count : Nat
deriving DecidableEq, Repr

/-- `ExecutionContext.get_argument_values`: look the
`(field_def, field_ast)` pair up in the cache; `if not result:` — i.e. on
a miss OR when the cached mapping is EMPTY (an empty dict is falsy) —
recompute via `get_argument_values` and store.  Storing is modelled by
prepending, which agrees with the source's in-place overwrite as far as
every later lookup (`find?` takes the newest binding) is concerned. -/
def ExecutionContext_get_argument_values
    (vars : List (String × PyValue)) (field_def : FieldDefL)
    (field_ast : FieldAstL) (st : ArgCacheState) :
    List (String × PyValue) × ArgCacheState :=
  let k := (field_def, field_ast)
  let cached := (st.argument_values_cache.find? (fun p => decide (p.1 = k))).map Prod.snd
  match cached with
  | some result =>
    if result.isEmpty then
      let result := get_argument_values field_def.args field_ast.arguments vars
      (result, ⟨(k, result) :: st.argument_values_cache, st.compute_count + 1⟩)
    else (result, st)
  | none =>
      let result := get_argument_values field_def.args field_ast.arguments vars
      (result, ⟨(k, result) :: st.argument_values_cache, st.compute_count + 1⟩)

/-- C5 counterexample: for a field definition with no declared arguments
the coerced mapping is empty, the cached empty dict fails the `if not
result:` truthiness test, and the underlying coercion runs again on every
call — after two calls with the same pair the computation has run twice,
refuting "computed at most once during the context's lifetime". -/
theorem claim_C5_counterexample :
    get_argument_values (FieldDefL.mk []).args (FieldAstL.mk []).arguments = (fun _ => []) ∧
    ¬ ((ExecutionContext_get_argument_values [] ⟨[]⟩ ⟨[]⟩
        (ExecutionContext_get_argument_values [] ⟨[]⟩ ⟨[]⟩
          ⟨[], 0⟩).2).2.compute_count ≤ 1) := by
  exact ⟨rfl, by decide⟩

/-- C5 (amended): the memoization works exactly for non-empty coerced
mappings — a first call from a fresh cache computes once and stores the
result, and every call finding a cached NON-empty mapping for the pair
returns it unchanged without recomputing; an empty mapping, by contrast,
is recomputed on each call (see the counterexample), though recomputation
yields the same value. -/
theorem claim_C5 (vars : List (String × PyValue))
    (field_def : FieldDefL) (field_ast : FieldAstL)
    (h : get_argument_values field_def.args field_ast.arguments vars ≠ []) :
    (ExecutionContext_get_argument_values vars field_def field_ast ⟨[], 0⟩ =
      (get_argument_values field_def.args field_ast.arguments vars,
       ⟨[((field_def, field_ast),
          get_argument_values field_def.args field_ast.arguments vars)], 1⟩)) ∧
    (∀ (st : ArgCacheState) (m : List (String × PyValue)),
      st.argument_values_cache.find?
        (fun p => decide (p.1 = (field_def, field_ast))) =
        some ((field_def, field_ast), m) →
      m ≠ [] →
      ExecutionContext_get_argument_values vars field_def field_ast st = (m, st)) ∧
    (ExecutionContext_get_argument_values vars field_def field_ast
      ⟨[((field_def, field_ast),
         get_argument_values field_def.args field_ast.arguments vars)], 1⟩ =
      (get_argument_values field_def.args field_ast.arguments vars,
       ⟨[((field_def, field_ast),
          get_argument_values field_def.args field_ast.arguments vars)], 1⟩)) := by
  have hcached : ∀ (st : ArgCacheState) (m : List (String × PyValue)),
      st.argument_values_cache.find?
        (fun p => decide (p.1 = (field_def, field_ast))) =
        some ((field_def, field_ast), m) →
      m ≠ [] →
      ExecutionContext_get_argument_values vars field_def field_ast st = (m, st) := by
    intro st m hf hm
    have hme : m.isEmpty = false := by
      cases m with
      | nil => exact absurd rfl hm
      | cons a l => rfl
    simp [ExecutionContext_get_argument_values, hf, hme]
  refine ⟨rfl, hcached, ?_⟩
  exact hcached _ _ (by simp) h

/-- Witness for C5: a field with one defaulted argument `x` coerces to the
non-empty mapping `x = 1`; the first call computes and caches it and a
second call on the resulting state returns it with the state (and so the
computation count) unchanged. -/
theorem claim_C5_witness :
    (ExecutionContext_get_argument_values []
      ⟨[⟨"x", .scalar "Int", some (.vInt 1)⟩]⟩ ⟨[]⟩ ⟨[], 0⟩ =
      ([("x", .vInt 1)],
       ⟨[((⟨[⟨"x", .scalar "Int", some (.vInt 1)⟩]⟩, ⟨[]⟩), [("x", .vInt 1)])], 1⟩)) ∧
    (ExecutionContext_get_argument_values []
      ⟨[⟨"x", .scalar "Int", some (.vInt 1)⟩]⟩ ⟨[]⟩
      ⟨[((⟨[⟨"x", .scalar "Int", some (.vInt 1)⟩]⟩, ⟨[]⟩), [("x", .vInt 1)])], 1⟩ =
      ([("x", .vInt 1)],
       ⟨[((⟨[⟨"x", .scalar "Int", some (.vInt 1)⟩]⟩, ⟨[]⟩), [("x", .vInt 1)])], 1⟩)) := by
  have h := claim_C5 [] ⟨[⟨"x", .scalar "Int", some (.vInt 1)⟩]⟩ ⟨[]⟩ (by decide)
  exact ⟨by simpa using h.1, by simpa using h.2.2⟩

/-! ## Field maps (`define_field_map`, `GraphQLObjectType.get_fields`) -/

/-- First character of the name pattern `[_a-zA-Z]`. -/
def isNameStartChar (c : Char) : Bool :=
  c = '_' || ('a' ≤ c && c ≤ 'z') || ('A' ≤ c && c ≤ 'Z')

/-- Continuation character of the name pattern `[_a-zA-Z0-9]`. -/
def isNameChar (c : Char) : Bool :=
  isNameStartChar c || ('0' ≤ c && c ≤ '9')

/-- `assert_valid_name`: the name matches the regular expression
matching an underscore or letter followed by underscores, letters and
digits. -/
def is_valid_name (s : String) : Bool :=
  match s.data with
  | [] => false
  | c :: cs => isNameStartChar c && cs.all isNameChar

/-- A Python mapping literal handed to the type system: an `OrderedDict`
(insertion order preserved) or a plain `dict` whose iteration order is
arbitrary — it is exactly the sort applied by the source to the latter
that restores determinism.  Keys are unique in any real Python dict. -/
inductive PyMapping (α : Type) where
  | orderedDict (entries : List (String × α))
  | plainDict (entries : List (String × α))
deriving DecidableEq, Repr

/-- The entries of the mapping in iteration order. -/
def pyMappingEntries {α : Type} : PyMapping α → List (String × α)
  | .orderedDict l => l
  | .plainDict l => l

/-- Python string comparison, lexicographic by code point, on the
underlying character lists. -/
def charListLe : List Char → List Char → Bool
  | [], _ => true
  | _ :: _, [] => false
  | a :: as, b :: bs =>
    if a.toNat < b.toNat then true
    else if b.toNat < a.toNat then false
    else charListLe as bs

/-- Python `a <= b` on strings. -/
def pyStrLe (a b : String) : Bool := charListLe a.data b.data

theorem charListLe_cons_iff (x y : Char) (xs ys : List Char) :
    charListLe (x :: xs) (y :: ys) = true ↔
      (x.toNat < y.toNat ∨ (x.toNat = y.toNat ∧ charListLe xs ys = true)) := by
  simp only [charListLe]
  split_ifs with h1 h2
  · simp [h1]
  · simp only [Bool.false_eq_true, false_iff]
    push_neg
    exact ⟨by omega, fun h => absurd h (by omega)⟩
  · have hxy : x.toNat = y.toNat := by omega
    constructor
    · intro h; exact .inr ⟨hxy, h⟩
    · rintro (h | ⟨-, h⟩)
      · omega
      · exact h

theorem charListLe_total : ∀ a b, charListLe a b = true ∨ charListLe b a = true := by
  intro a
  induction a with
  | nil => intro b; exact .inl rfl
  | cons x xs ih =>
    intro b
    cases b with
    | nil => exact .inr rfl
    | cons y ys =>
      rcases Nat.lt_trichotomy x.toNat y.toNat with h | h | h
      · exact .inl ((charListLe_cons_iff x y xs ys).2 (.inl h))
      · rcases ih ys with h2 | h2
        · exact .inl ((charListLe_cons_iff x y xs ys).2 (.inr ⟨h, h2⟩))
        · exact .inr ((charListLe_cons_iff y x ys xs).2 (.inr ⟨h.symm, h2⟩))
      · exact .inr ((charListLe_cons_iff y x ys xs).2 (.inl h))

theorem charListLe_trans :
    ∀ a b c, charListLe a b = true → charListLe b c = true →
    charListLe a c = true := by
  intro a
  induction a with
  | nil => intro b c _ _; rfl
  | cons x xs ih =>
    intro b c hab hbc
    cases b with
    | nil => simp [charListLe] at hab
    | cons y ys =>
      cases c with
      | nil => simp [charListLe] at hbc
      | cons z zs =>
        rcases (charListLe_cons_iff x y xs ys).1 hab with h1 | ⟨h1, h1t⟩ <;>
          rcases (charListLe_cons_iff y z ys zs).1 hbc with h2 | ⟨h2, h2t⟩
        · exact (charListLe_cons_iff x z xs zs).2 (.inl (by omega))
        · exact (charListLe_cons_iff x z xs zs).2 (.inl (by omega))
        · exact (charListLe_cons_iff x z xs zs).2 (.inl (by omega))
        · exact (charListLe_cons_iff x z xs zs).2
            (.inr ⟨by omega, ih ys zs h1t h2t⟩)

/-- Key order used by `sorted(list(m.items()))`: compare the (unique) keys
the way Python compares strings. -/
def keyLE {α : Type} (p q : String × α) : Prop := pyStrLe p.1 q.1 = true

instance {α : Type} : DecidableRel (keyLE (α := α)) :=
  fun p q => inferInstanceAs (Decidable (pyStrLe p.1 q.1 = true))

instance {α : Type} : IsTotal (String × α) keyLE :=
  ⟨fun a b => charListLe_total a.1.data b.1.data⟩

instance {α : Type} : IsTrans (String × α) keyLE :=
  ⟨fun _ _ _ h h2 => charListLe_trans _ _ _ h h2⟩

/-- The list of names is in Python's sorted (alphabetical) order. -/
def pyStrSorted (l : List String) : Prop :=
  l.Pairwise (fun a b => pyStrLe a b = true)

instance (l : List String) : Decidable (pyStrSorted l) := by
  unfold pyStrSorted
  infer_instance

/-- `OrderedDict(sorted(list(m.items())))`: Python's sort compares the
`(key, value)` tuples, which on unique keys is a sort by key. -/
def pySorted {α : Type} (l : List (String × α)) : List (String × α) :=
  l.insertionSort keyLE

/-- `field_map if isinstance(field_map, OrderedDict) else
OrderedDict(sorted(list(field_map.items())))`. -/
def canonicalEntries {α : Type} : PyMapping α → List (String × α)
  | .orderedDict l => l
  | .plainDict l => pySorted l

/-- A `GraphQLArgument` as supplied at schema-definition time (its `name`
slot is still unset). -/
structure GraphQLArgumentInput where
  type : GType
  default_value : Option PyValue
  description : Option String
deriving DecidableEq, Repr

/-- A `GraphQLArgument` after `define_field_map` copied it and set its
name. -/
structure GraphQLArgumentN where
  name : String
  type : GType
  default_value : Option PyValue
  description : Option String
deriving DecidableEq, Repr

/-- A `GraphQLField` as supplied at schema-definition time (name unset,
argument mapping raw).  The resolver function is not represented — it
plays no part in field-map resolution and ordering. -/
structure GraphQLField where
  type : GType
  args : Option (PyMapping GraphQLArgumentInput)
  deprecation_reason : Option String
  description : Option String
deriving DecidableEq, Repr

/-- A `GraphQLField` after `define_field_map` normalised it: name set,
arguments an ordered list of named arguments. -/
structure GraphQLFieldN where
  name : String
  type : GType
  args : List GraphQLArgumentN
  deprecation_reason : Option String
  description : Option String
deriving DecidableEq, Repr

/-- Per-argument step of `define_field_map`: validate the argument name,
check the argument type with `is_input_type`, copy with the name set. -/
def defineFieldArg (arg_name : String) (arg : GraphQLArgumentInput) :
    Except PyError GraphQLArgumentN :=
  if !is_valid_name arg_name then
    .error (.assertionError "Names must match the name pattern")
  else if !is_input_type arg.type then
    .error (.assertionError "argument type must be Input Type")
  else .ok ⟨arg_name, arg.type, arg.default_value, arg.description⟩

/-- The per-argument loop over the canonicalised argument entries. -/
def defineFieldArgList :
    List (String × GraphQLArgumentInput) → Except PyError (List GraphQLArgumentN)
  | [] => .ok []
  | (n, a) :: rest => do
      let a2 ← defineFieldArg n a
      let rest2 ← defineFieldArgList rest
      .ok (a2 :: rest2)

/-- Per-field step of `define_field_map`: validate the field name, copy
the field with the name set, check the field type with `is_output_type`;
`if not field.args:` (absent or empty) default the arguments to `[]`,
else canonicalise (sort a plain dict) and run the per-argument loop. -/
def defineFieldEntry (field_name : String) (field : GraphQLField) :
    Except PyError GraphQLFieldN :=
  if !is_valid_name field_name then
    .error (.assertionError "Names must match the name pattern")
  else if !is_output_type field.type then
    .error (.assertionError "field type must be Output Type")
  else
    match field.args with
    | none =>
        .ok ⟨field_name, field.type, [], field.deprecation_reason, field.description⟩
    | some m =>
        if (pyMappingEntries m).isEmpty then
          .ok ⟨field_name, field.type, [], field.deprecation_reason, field.description⟩
        else do
          let args ← defineFieldArgList (canonicalEntries m)
          .ok ⟨field_name, field.type, args, field.deprecation_reason, field.description⟩

/-- The per-field loop of `define_field_map` building the result
`OrderedDict` in iteration order of the canonicalised mapping. -/
def defineFieldMapEntries :
    List (String × GraphQLField) → Except PyError (List (String × GraphQLFieldN))
  | [] => .ok []
  | (n, f) :: rest => do
      let fn ← defineFieldEntry n f
      let rest2 ← defineFieldMapEntries rest
      .ok ((n, fn) :: rest2)

/-- `fields` as stored on an Object/Interface type: a mapping literal or a
zero-argument thunk producing one (for mutual type recursion). -/
inductive FieldsThunk where
  | value (fm : PyMapping GraphQLField)
  | thunk (f : Unit → PyMapping GraphQLField)

/-- `if callable(field_map): field_map = field_map()`. -/
def resolveFieldsThunk : FieldsThunk → PyMapping GraphQLField
  | .value fm => fm
  | .thunk f => f ()

/-- `define_field_map`: resolve the thunk, reject an empty mapping,
canonicalise the order (insertion order for an `OrderedDict`, sorted by
name for a plain dict), then validate and normalise every field in that
order. -/
def define_field_map (fields : FieldsThunk) :
    Except PyError (List (String × GraphQLFieldN)) :=
  let field_map := resolveFieldsThunk fields
  if (pyMappingEntries field_map).isEmpty then
    .error (.assertionError "fields must be a mapping with field names as keys")
  else
    defineFieldMapEntries (canonicalEntries field_map)

/-- The mutable slots of a `GraphQLObjectType` (resp. interface type) that
`get_fields` touches, plus an instrumentation counter of how often
`define_field_map` has run. -/
structure ObjectTypeState where
  fieldsSlot : FieldsThunk
  field_map : Option (List (String × GraphQLFieldN))
  resolve_count : Nat

/-- `GraphQLObjectType.get_fields`: on first call resolve
`define_field_map` and memoize it in `_field_map`; afterwards return the
memoized mapping. -/
def GraphQLObjectType_get_fields (st : ObjectTypeState) :
    Except PyError (List (String × GraphQLFieldN) × ObjectTypeState) :=
  match st.field_map with
  | some fm => .ok (fm, st)
  | none =>
    match define_field_map st.fieldsSlot with
    | .ok fm => .ok (fm, ⟨st.fieldsSlot, some fm, st.resolve_count + 1⟩)
    | .error e => .error e

theorem defineFieldMapEntries_keys :
    ∀ (l : List (String × GraphQLField)) (r : List (String × GraphQLFieldN)),
    defineFieldMapEntries l = .ok r → r.map Prod.fst = l.map Prod.fst := by
  intro l
  induction l with
  | nil => intro r h; cases h; rfl
  | cons p rest ih =>
    intro r h
    obtain ⟨n, f⟩ := p
    simp only [defineFieldMapEntries, Bind.bind, Except.bind] at h
    cases he : defineFieldEntry n f with
    | error e => rw [he] at h; cases h
    | ok fn =>
      rw [he] at h
      cases hr : defineFieldMapEntries rest with
      | error e => rw [hr] at h; cases h
      | ok rest2 =>
        rw [hr] at h
        injection h with h2
        subst h2
        simp [ih rest2 hr]

/-- C8: with the supplied (or thunk-produced) mapping an `OrderedDict`,
a successful `get_fields` returns the fields under their original
insertion-order keys; with a plain dict it returns them under
alphabetically sorted keys (a permutation of the original keys); and a
repeated call returns the very same mapping with the state — including
the count of `define_field_map` runs — unchanged, the field map having
been resolved exactly once on the first successful call. -/
theorem claim_C8 :
    (∀ (fields : FieldsThunk) (l : List (String × GraphQLField))
       (fm : List (String × GraphQLFieldN)),
      resolveFieldsThunk fields = .orderedDict l →
      define_field_map fields = .ok fm →
      fm.map Prod.fst = l.map Prod.fst) ∧
    (∀ (fields : FieldsThunk) (l : List (String × GraphQLField))
       (fm : List (String × GraphQLFieldN)),
      resolveFieldsThunk fields = .plainDict l →
      define_field_map fields = .ok fm →
      pyStrSorted (fm.map Prod.fst) ∧
      List.Perm (fm.map Prod.fst) (l.map Prod.fst)) ∧
    (∀ (st : ObjectTypeState) (fm : List (String × GraphQLFieldN))
       (st2 : ObjectTypeState),
      GraphQLObjectType_get_fields st = .ok (fm, st2) →
      GraphQLObjectType_get_fields st2 = .ok (fm, st2) ∧
      (st.field_map = none → st2.resolve_count = st.resolve_count + 1)) := by
  refine ⟨fun fields l fm hres h => ?_, fun fields l fm hres h => ?_,
    fun st fm st2 h => ?_⟩
  · unfold define_field_map at h
    rw [hres] at h
    simp only [pyMappingEntries, canonicalEntries] at h
    split at h
    · exact absurd h (by simp)
    · exact defineFieldMapEntries_keys _ _ h
  · unfold define_field_map at h
    rw [hres] at h
    simp only [pyMappingEntries, canonicalEntries] at h
    split at h
    · exact absurd h (by simp)
    · have hk := defineFieldMapEntries_keys _ _ h
      constructor
      · rw [hk]
        have hs : List.Pairwise keyLE (pySorted l) :=
          List.sorted_insertionSort keyLE l
        exact List.pairwise_map.2 hs
      · rw [hk]
        exact (List.perm_insertionSort keyLE l).map Prod.fst
  · unfold GraphQLObjectType_get_fields at h
    cases hc : st.field_map with
    | some fm0 =>
      rw [hc] at h
      injection h with h2
      have hfm : fm0 = fm := congrArg Prod.fst h2
      have hst : st = st2 := congrArg Prod.snd h2
      subst hfm; subst hst
      refine ⟨?_, fun hn => ?_⟩
      · unfold GraphQLObjectType_get_fields
        rw [hc]
      · exact absurd hn (Option.some_ne_none _)
    | none =>
      rw [hc] at h
      cases hd : define_field_map st.fieldsSlot with
      | error e => rw [hd] at h; exact absurd h (by simp)
      | ok fm0 =>
        rw [hd] at h
        injection h with h2
        have hfm : fm0 = fm := congrArg Prod.fst h2
        have hst : (⟨st.fieldsSlot, some fm0, st.resolve_count + 1⟩ : ObjectTypeState) = st2 :=
          congrArg Prod.snd h2
        subst hfm
        refine ⟨?_, fun _ => by rw [← hst]⟩
        rw [← hst]
        rfl

/-- Witness for C8: the two-field map under keys `b`, `a` keeps the order
`[b, a]` when supplied as an `OrderedDict` and is resolved as `[a, b]`
when supplied as a plain dict; a second `get_fields` call returns the
memoized mapping and leaves the resolve count at 1. -/
theorem claim_C8_witness :
    (List.map Prod.fst [("b", GraphQLFieldN.mk "b" (.scalar "String") [] none none),
        ("a", .mk "a" (.scalar "String") [] none none)] = ["b", "a"]) ∧
    (pyStrSorted (List.map Prod.fst
        [("a", GraphQLFieldN.mk "a" (.scalar "String") [] none none),
         ("b", .mk "b" (.scalar "String") [] none none)])) ∧
    (GraphQLObjectType_get_fields
      ⟨.value (.orderedDict [("b", ⟨.scalar "String", none, none, none⟩),
                             ("a", ⟨.scalar "String", none, none, none⟩)]),
       some [("b", .mk "b" (.scalar "String") [] none none),
             ("a", .mk "a" (.scalar "String") [] none none)], 1⟩ =
     .ok ([("b", .mk "b" (.scalar "String") [] none none),
           ("a", .mk "a" (.scalar "String") [] none none)],
       ⟨.value (.orderedDict [("b", ⟨.scalar "String", none, none, none⟩),
                              ("a", ⟨.scalar "String", none, none, none⟩)]),
        some [("b", .mk "b" (.scalar "String") [] none none),
              ("a", .mk "a" (.scalar "String") [] none none)], 1⟩)) := by
  have h1 := claim_C8.1
    (.value (.orderedDict [("b", ⟨.scalar "String", none, none, none⟩),
                           ("a", ⟨.scalar "String", none, none, none⟩)]))
    [("b", ⟨.scalar "String", none, none, none⟩),
     ("a", ⟨.scalar "String", none, none, none⟩)]
    [("b", .mk "b" (.scalar "String") [] none none),
     ("a", .mk "a" (.scalar "String") [] none none)] rfl rfl
  have h2 := claim_C8.2.1
    (.value (.plainDict [("b", ⟨.scalar "String", none, none, none⟩),
                         ("a", ⟨.scalar "String", none, none, none⟩)]))
    [("b", ⟨.scalar "String", none, none, none⟩),
     ("a", ⟨.scalar "String", none, none, none⟩)]
    [("a", .mk "a" (.scalar "String") [] none none),
     ("b", .mk "b" (.scalar "String") [] none none)] rfl rfl
  have h3 := claim_C8.2.2
    ⟨.value (.orderedDict [("b", ⟨.scalar "String", none, none, none⟩),
                           ("a", ⟨.scalar "String", none, none, none⟩)]),
     none, 0⟩
    [("b", .mk "b" (.scalar "String") [] none none),
     ("a", .mk "a" (.scalar "String") [] none none)]
    ⟨.value (.orderedDict [("b", ⟨.scalar "String", none, none, none⟩),
                           ("a", ⟨.scalar "String", none, none, none⟩)]),
     some [("b", .mk "b" (.scalar "String") [] none none),
           ("a", .mk "a" (.scalar "String") [] none none)], 1⟩ rfl
  exact ⟨h1, h2.1, h3.1⟩

/-! ## Enum types (`GraphQLEnumType.serialize`, `_get_value_lookup`,
`define_enum_values`) -/

/-- A `GraphQLEnumValue` as supplied at construction time; a `None`
underlying value (modelled `PyValue.vNone`) is later defaulted to the
value's own name. -/
structure GraphQLEnumValueInput where
  value : PyValue
  deprecation_reason : Option String
  description : Option String
deriving DecidableEq, Repr

/-- A `GraphQLEnumValue` after `define_enum_values` set its name and
defaulted its value. -/
structure GraphQLEnumValueN where
  name : String
  value : PyValue
  deprecation_reason : Option String
  description : Option String
deriving DecidableEq, Repr

/-- Per-value step of `define_enum_values`: validate the name, copy with
the name set, default a `None` underlying value to the name. -/
def defineEnumEntry (value_name : String) (v : GraphQLEnumValueInput) :
    Except PyError GraphQLEnumValueN :=
  if !is_valid_name value_name then
    .error (.assertionError "Names must match the name pattern")
  else
    .ok ⟨value_name,
      if v.value = .vNone then .vStr value_name else v.value,
      v.deprecation_reason, v.description⟩

/-- The per-value loop of `define_enum_values` over the canonicalised
entries. -/
def defineEnumEntries :
    List (String × GraphQLEnumValueInput) → Except PyError (List GraphQLEnumValueN)
  | [] => .ok []
  | (n, v) :: rest => do
      let v2 ← defineEnumEntry n v
      let rest2 ← defineEnumEntries rest
      .ok (v2 :: rest2)

/-- `define_enum_values`: reject an empty mapping, canonicalise the order,
run the per-value loop. -/
def define_enum_values (value_map : PyMapping GraphQLEnumValueInput) :
    Except PyError (List GraphQLEnumValueN) :=
  if (pyMappingEntries value_map).isEmpty then
    .error (.assertionError "values must be a mapping with value names as keys")
  else defineEnumEntries (canonicalEntries value_map)

/-- `dict[k] = v` with Python-`==` keys: an existing equal key keeps its
position with the value replaced, a new key is appended. -/
def pyDictInsert (m : List (PyValue × GraphQLEnumValueN)) (k : PyValue)
    (v : GraphQLEnumValueN) : List (PyValue × GraphQLEnumValueN) :=
  if m.any (fun p => pyEq p.1 k) then
    m.map (fun p => if pyEq p.1 k then (p.1, v) else p)
  else m ++ [(k, v)]

/-- `dict.get(k)` with Python-`==` keys. -/
def pyDictGet (m : List (PyValue × GraphQLEnumValueN)) (k : PyValue) :
    Option GraphQLEnumValueN :=
  (m.find? (fun p => pyEq p.1 k)).map Prod.snd

/-- `GraphQLEnumType._get_value_lookup`: the dict comprehension over the
enum values keyed by underlying value — hashing an unhashable key raises
`TypeError`, a later value with an equal key overwrites an earlier one. -/
def GraphQLEnumType_value_lookup :
    List GraphQLEnumValueN → List (PyValue × GraphQLEnumValueN) →
    Except PyError (List (PyValue × GraphQLEnumValueN))
  | [], acc => .ok acc
  | v :: rest, acc =>
    if pyHashable v.value then
      GraphQLEnumType_value_lookup rest (pyDictInsert acc v.value v)
    else .error (.typeError "unhashable type")

/-- `GraphQLEnumType.serialize`: for a hashable input, look it up in the
value lookup (built here on demand, as on a fresh type) and return the
matching enum value's name, else `None`; an unhashable input short-circuits
to `None` without touching the lookup. -/
def GraphQLEnumType_serialize (values : List GraphQLEnumValueN)
    (value : PyValue) : Except PyError (Option String) :=
  if pyHashable value then do
    let lookup ← GraphQLEnumType_value_lookup values []
    match pyDictGet lookup value with
    | some enum_value => .ok (some enum_value.name)
    | none => .ok none
  else .ok none

theorem pyEq_symm {a b : PyValue} (h : pyEq a b = true) : pyEq b a = true := by
  simp [pyEq] at h ⊢
  exact h.symm

theorem pyEq_trans {a b c : PyValue} (h : pyEq a b = true)
    (h2 : pyEq b c = true) : pyEq a c = true := by
  simp [pyEq] at h h2 ⊢
  exact h.trans h2

theorem pyDictInsert_mem {m : List (PyValue × GraphQLEnumValueN)}
    {k : PyValue} {v : GraphQLEnumValueN}
    {p : PyValue × GraphQLEnumValueN} (h : p ∈ pyDictInsert m k v) :
    p ∈ m ∨ (pyEq p.1 k = true ∧ p.2 = v) := by
  unfold pyDictInsert at h
  split at h
  · rcases List.mem_map.1 h with ⟨q, hq, hpq⟩
    by_cases hqe : pyEq q.1 k = true
    · rw [if_pos hqe] at hpq
      exact .inr ⟨by rw [← hpq]; exact hqe, by rw [← hpq]⟩
    · rw [if_neg hqe] at hpq
      exact .inl (hpq ▸ hq)
  · rcases List.mem_append.1 h with hm | hs
    · exact .inl hm
    · rcases List.mem_singleton.1 hs with rfl
      exact .inr ⟨by simp [pyEq], rfl⟩

theorem pyDictInsert_keys {m : List (PyValue × GraphQLEnumValueN)}
    {k : PyValue} {v : GraphQLEnumValueN}
    {q : PyValue × GraphQLEnumValueN} (h : q ∈ m) :
    ∃ p ∈ pyDictInsert m k v, p.1 = q.1 := by
  unfold pyDictInsert
  split
  · by_cases hqe : pyEq q.1 k = true
    · exact ⟨(q.1, v), List.mem_map.2 ⟨q, h, by rw [if_pos hqe]⟩, rfl⟩
    · exact ⟨q, List.mem_map.2 ⟨q, h, by rw [if_neg hqe]⟩, rfl⟩
  · exact ⟨q, List.mem_append.2 (.inl h), rfl⟩

theorem pyDictInsert_has_key (m : List (PyValue × GraphQLEnumValueN))
    (k : PyValue) (v : GraphQLEnumValueN) :
    ∃ p ∈ pyDictInsert m k v, pyEq p.1 k = true := by
  unfold pyDictInsert
  split
  · next hany =>
    rcases List.any_eq_true.1 hany with ⟨q, hq, hqe⟩
    exact ⟨(q.1, v), List.mem_map.2 ⟨q, hq, by rw [if_pos hqe]⟩, hqe⟩
  · exact ⟨(k, v), List.mem_append.2 (.inr (List.mem_singleton.2 rfl)),
      by simp [pyEq]⟩

theorem value_lookup_sound :
    ∀ (rest : List GraphQLEnumValueN) (acc m : List (PyValue × GraphQLEnumValueN))
      (vs : List GraphQLEnumValueN),
    (∀ p ∈ acc, pyEq p.1 p.2.value = true ∧ p.2 ∈ vs) →
    (∀ v ∈ rest, v ∈ vs) →
    GraphQLEnumType_value_lookup rest acc = .ok m →
    ∀ p ∈ m, pyEq p.1 p.2.value = true ∧ p.2 ∈ vs := by
  intro rest
  induction rest with
  | nil =>
    intro acc m vs hacc _ h
    injection h with h2
    exact h2 ▸ hacc
  | cons v rest2 ih =>
    intro acc m vs hacc hsub h
    unfold GraphQLEnumType_value_lookup at h
    split at h
    · refine ih _ m vs ?_ (fun w hw => hsub w (List.mem_cons_of_mem _ hw)) h
      intro p hp
      rcases pyDictInsert_mem hp with hm | ⟨hk, hv⟩
      · exact hacc p hm
      · exact ⟨hv ▸ hk, hv ▸ hsub v (List.mem_cons_self _ _)⟩
    · exact absurd h (by simp)

theorem value_lookup_keys :
    ∀ (rest : List GraphQLEnumValueN) (acc m : List (PyValue × GraphQLEnumValueN)),
    GraphQLEnumType_value_lookup rest acc = .ok m →
    ∀ q ∈ acc, ∃ p ∈ m, p.1 = q.1 := by
  intro rest
  induction rest with
  | nil =>
    intro acc m h q hq
    injection h with h2
    exact ⟨q, h2 ▸ hq, rfl⟩
  | cons v rest2 ih =>
    intro acc m h q hq
    unfold GraphQLEnumType_value_lookup at h
    split at h
    · rcases pyDictInsert_keys (k := v.value) (v := v) hq with ⟨p2, hp2, hp2k⟩
      rcases ih _ m h p2 hp2 with ⟨p3, hp3, hp3k⟩
      exact ⟨p3, hp3, hp3k.trans hp2k⟩
    · exact absurd h (by simp)

theorem value_lookup_complete :
    ∀ (rest : List GraphQLEnumValueN) (acc m : List (PyValue × GraphQLEnumValueN)),
    GraphQLEnumType_value_lookup rest acc = .ok m →
    ∀ v ∈ rest, ∃ p ∈ m, pyEq p.1 v.value = true := by
  intro rest
  induction rest with
  | nil => intro acc m _ v hv; cases hv
  | cons w rest2 ih =>
    intro acc m h v hv
    unfold GraphQLEnumType_value_lookup at h
    split at h
    · rcases List.mem_cons.1 hv with rfl | hv2
      · rcases pyDictInsert_has_key acc v.value v with ⟨p2, hp2, hp2e⟩
        rcases value_lookup_keys rest2 _ m h p2 hp2 with ⟨p3, hp3, hp3k⟩
        exact ⟨p3, hp3, hp3k ▸ hp2e⟩
      · exact ih _ m h v hv2
    · exact absurd h (by simp)

theorem value_lookup_total :
    ∀ (rest : List GraphQLEnumValueN) (acc : List (PyValue × GraphQLEnumValueN)),
    (∀ v ∈ rest, pyHashable v.value = true) →
    ∃ m, GraphQLEnumType_value_lookup rest acc = .ok m := by
  intro rest
  induction rest with
  | nil => intro acc _; exact ⟨acc, rfl⟩
  | cons v rest2 ih =>
    intro acc hh
    unfold GraphQLEnumType_value_lookup
    rw [if_pos (hh v (List.mem_cons_self _ _))]
    exact ih _ (fun w hw => hh w (List.mem_cons_of_mem _ hw))

theorem pyDictGet_some {m : List (PyValue × GraphQLEnumValueN)} {k : PyValue}
    {ev : GraphQLEnumValueN} (h : pyDictGet m k = some ev) :
    ∃ p ∈ m, p.2 = ev ∧ pyEq p.1 k = true := by
  unfold pyDictGet at h
  cases hf : m.find? (fun q => pyEq q.1 k) with
  | none => rw [hf] at h; cases h
  | some p =>
    rw [hf] at h
    injection h with h2
    exact ⟨p, List.mem_of_find?_eq_some hf, h2, by simpa using List.find?_some hf⟩

theorem pyDictGet_none {m : List (PyValue × GraphQLEnumValueN)} {k : PyValue}
    (h : pyDictGet m k = none) : ∀ p ∈ m, pyEq p.1 k = false := by
  unfold pyDictGet at h
  rw [Option.map_eq_none'] at h
  intro p hp
  have h2 := List.find?_eq_none.1 h p hp
  simpa using h2

theorem pyDictGet_isSome_of {m : List (PyValue × GraphQLEnumValueN)}
    {k : PyValue} {p : PyValue × GraphQLEnumValueN}
    (hp : p ∈ m) (he : pyEq p.1 k = true) :
    ∃ ev, pyDictGet m k = some ev := by
  unfold pyDictGet
  have hs : (m.find? (fun q => pyEq q.1 k)).isSome :=
    List.find?_isSome.2 ⟨p, hp, by simpa using he⟩
  cases hf : m.find? (fun q => pyEq q.1 k) with
  | none => rw [hf] at hs; cases hs
  | some q => exact ⟨q.2, rfl⟩

/-- C10 counterexample: an enum value whose underlying value is unhashable
is accepted by `define_enum_values`, yet `serialize` then raises a
`TypeError` (while building the value lookup) on any hashable input —
refuting "for every input value it never raises". -/
theorem claim_C10_counterexample :
    define_enum_values (.orderedDict [("A", ⟨.vUnhashable 0, none, none⟩)]) =
      .ok [⟨"A", .vUnhashable 0, none, none⟩] ∧
    exceptIsError (GraphQLEnumType_serialize
      [⟨"A", .vUnhashable 0, none, none⟩] (.vInt 0)) = true := by
  exact ⟨rfl, rfl⟩

/-- C10 (amended): provided every enum value's underlying value is
hashable, `serialize` never raises; it returns the name of an enum value
whose underlying value equals (Python `==`) a hashable input when one
exists, `None` when none does, and `None` for every unhashable input.
(An enum value with an unhashable underlying value instead makes
`serialize` raise `TypeError` for every hashable input — see the
counterexample.) -/
theorem claim_C10 (values : List GraphQLEnumValueN) (value : PyValue)
    (hh : ∀ v ∈ values, pyHashable v.value = true) :
    (∃ r, GraphQLEnumType_serialize values value = .ok r) ∧
    (pyHashable value = false →
      GraphQLEnumType_serialize values value = .ok none) ∧
    (∀ n, GraphQLEnumType_serialize values value = .ok (some n) →
      ∃ ev ∈ values, pyEq ev.value value = true ∧ ev.name = n) ∧
    (pyHashable value = true → (∃ ev ∈ values, pyEq ev.value value = true) →
      ∃ n, GraphQLEnumType_serialize values value = .ok (some n)) ∧
    (pyHashable value = true → (∀ ev ∈ values, pyEq ev.value value = false) →
      GraphQLEnumType_serialize values value = .ok none) := by
  rcases value_lookup_total values [] hh with ⟨m, hm⟩
  have hsound := value_lookup_sound values [] m values (by simp) (fun v hv => hv) hm
  by_cases hv : pyHashable value = true
  · have hser : GraphQLEnumType_serialize values value =
        (match pyDictGet m value with
         | some enum_value => .ok (some enum_value.name)
         | none => .ok none) := by
      unfold GraphQLEnumType_serialize
      rw [if_pos hv]
      simp [hm, Bind.bind, Except.bind]
    refine ⟨?_, fun hf => absurd hv (by rw [hf]; simp),
      fun n hn => ?_, fun _ hex => ?_, fun _ hnone => ?_⟩
    · rw [hser]
      cases pyDictGet m value with
      | some ev => exact ⟨some ev.name, rfl⟩
      | none => exact ⟨none, rfl⟩
    · rw [hser] at hn
      cases hg : pyDictGet m value with
      | none => rw [hg] at hn; injection hn with h2; cases h2
      | some ev =>
        rw [hg] at hn
        injection hn with h2
        injection h2 with h3
        rcases pyDictGet_some hg with ⟨p, hp, hpe, hpk⟩
        rcases hsound p hp with ⟨hpv, hpm⟩
        exact ⟨p.2, hpm, pyEq_trans (pyEq_symm hpv) hpk, by rw [hpe, h3]⟩
    · rcases hex with ⟨ev, hev, heq⟩
      rcases value_lookup_complete values [] m hm ev hev with ⟨p, hp, hpe⟩
      have hkey : pyEq p.1 value = true := pyEq_trans hpe heq
      rcases pyDictGet_isSome_of hp hkey with ⟨ev2, hg⟩
      rw [hser, hg]
      exact ⟨ev2.name, rfl⟩
    · rw [hser]
      cases hg : pyDictGet m value with
      | none => rfl
      | some ev2 =>
        rcases pyDictGet_some hg with ⟨p, hp, hpe, hpk⟩
        rcases hsound p hp with ⟨hpv, hpm⟩
        have hcontra : pyEq p.2.value value = true :=
          pyEq_trans (pyEq_symm hpv) hpk
        rw [hnone p.2 hpm] at hcontra
        cases hcontra
  · have hf : pyHashable value = false := by
      cases hpv : pyHashable value
      · rfl
      · exact absurd hpv hv
    have hser : GraphQLEnumType_serialize values value = .ok none := by
      unfold GraphQLEnumType_serialize
      rw [if_neg (by rw [hf]; simp)]
    refine ⟨⟨none, hser⟩, fun _ => hser, fun n hn => ?_,
      fun ht _ => absurd ht hv, fun ht _ => absurd ht hv⟩
    rw [hser] at hn
    injection hn with h2
    cases h2

/-- Witness for C10 on the enum with values `RED = 0`, `GREEN = 1`: an
unhashable input and an unmatched string input serialize to `None`, and
from the concrete evaluation `serialize 1 = GREEN` the soundness clause
recovers the matching enum value. -/
theorem claim_C10_witness :
    GraphQLEnumType_serialize
      [⟨"RED", .vInt 0, none, none⟩, ⟨"GREEN", .vInt 1, none, none⟩]
      (.vUnhashable 3) = .ok none ∧
    GraphQLEnumType_serialize
      [⟨"RED", .vInt 0, none, none⟩, ⟨"GREEN", .vInt 1, none, none⟩]
      (.vStr "x") = .ok none ∧
    (∃ ev ∈ [GraphQLEnumValueN.mk "RED" (.vInt 0) none none,
             .mk "GREEN" (.vInt 1) none none],
      pyEq ev.value (.vInt 1) = true ∧ ev.name = "GREEN") := by
  have h := claim_C10
    [⟨"RED", .vInt 0, none, none⟩, ⟨"GREEN", .vInt 1, none, none⟩]
    (.vUnhashable 3) (by decide)
  have h2 := claim_C10
    [⟨"RED", .vInt 0, none, none⟩, ⟨"GREEN", .vInt 1, none, none⟩]
    (.vStr "x") (by decide)
  have h3 := claim_C10
    [⟨"RED", .vInt 0, none, none⟩, ⟨"GREEN", .vInt 1, none, none⟩]
    (.vInt 1) (by decide)
  exact ⟨h.2.1 (by decide), h2.2.2.2.2 (by decide) (by decide),
    h3.2.2.1 "GREEN" rfl⟩

/-! ## The execution result (`ExecutionResult.__init__`) -/

/-- An error object handed to `ExecutionResult`: either a plain error or a
`DeferredException` wrapping one (whose `.value` is the wrapped error). -/
inductive ErrorItem where
  | plain (e : PyError)
  | deferredException (e : PyError)
deriving DecidableEq, Repr

/-- `error.value if isinstance(error, DeferredException) else error`. -/
def unwrapErrorItem : ErrorItem → PyError
  | .plain e => e
  | .deferredException e => e

/-- The terminal result of one execution. -/
structure ExecutionResult where
  data : Option PyValue
  errors : Option (List PyError)
  invalid : Bool
deriving DecidableEq, Repr

/-- The error-list normalisation done by `ExecutionResult.__init__`:
`if errors:` (truthy, i.e. non-`None` and non-empty) unwrap every
`DeferredException`, else keep the argument as passed. -/
def ExecutionResult_errors : Option (List ErrorItem) → Option (List PyError)
  | none => none
  | some es => if es.isEmpty then some [] else some (es.map unwrapErrorItem)

/-- `ExecutionResult.__init__`: stores `data`; normalises `errors`;
`if invalid: assert data is None` — a failing assert raises. -/
def ExecutionResult_init (data : Option PyValue)
    (errors : Option (List ErrorItem)) (invalid : Bool) :
    Except PyError ExecutionResult :=
  if invalid && data.isSome then
    .error (.assertionError "data is None")
  else
    .ok ⟨data, ExecutionResult_errors errors, invalid⟩

/-- C9: constructing an `ExecutionResult` with `invalid=True` and data
present fails the assertion, and every successfully constructed
`ExecutionResult` satisfies `invalid = true → data = None`. -/
theorem claim_C9 :
    (∀ (d : PyValue) (errors : Option (List ErrorItem)),
      ExecutionResult_init (some d) errors true =
        .error (.assertionError "data is None")) ∧
    (∀ (data : Option PyValue) (errors : Option (List ErrorItem))
       (invalid : Bool) (r : ExecutionResult),
      ExecutionResult_init data errors invalid = .ok r →
      r.invalid = true → r.data = none) := by
  constructor
  · intro d errors
    simp [ExecutionResult_init]
  · intro data errors invalid r h hinv
    unfold ExecutionResult_init at h
    split at h
    · exact absurd h (by simp)
    · next hc =>
      injection h with h2
      subst h2
      cases data with
      | none => rfl
      | some v => simp_all

/-- Witness for C9: the second conjunct applied to the concrete successful
construction with no data and `invalid=True`. -/
theorem claim_C9_witness :
    ExecutionResult_init none none true = .ok ⟨none, none, true⟩ ∧
    (⟨none, none, true⟩ : ExecutionResult).data = none := by
  refine ⟨rfl, claim_C9.2 none none true ⟨none, none, true⟩ rfl rfl⟩

/-! ## Field collection (`collect_fields`, `does_fragment_condition_match`,
`get_field_entry_key`) -/

/-- The name of a named type (`type.name`); wrappers have no name slot. -/
def gtypeNameOpt : GType → Option String
  | .scalar n => some n
  | .object n => some n
  | .interface n _ => some n
  | .union n _ => some n
  | .enum n => some n
  | .inputObject n => some n
  | _ => none

/-- `type_from_ast` restricted to the named type nodes that appear as
fragment type conditions: a name lookup in the schema's type map. -/
def type_from_ast (schema : List (String × GType)) (name : String) :
    Option GType :=
  (schema.find? (fun p => p.1 == name)).map Prod.snd

/-- `is_possible_type` on an Interface/Union: membership of the runtime
type's name in the (lazily cached) possible-type name set, carried here
directly on the type. -/
def is_possible_type (abstract_type type_ : GType) : Bool :=
  match abstract_type, gtypeNameOpt type_ with
  | .interface _ poss, some n => poss.contains n
  | .union _ poss, some n => poss.contains n
  | _, _ => false

/-- `does_fragment_condition_match`: no condition always matches; else the
condition type must be the runtime type itself, or an abstract type of
which the runtime type is a possible type. -/
def does_fragment_condition_match (schema : List (String × GType))
    (type_condition : Option String) (type_ : GType) : Bool :=
  match type_condition with
  | none => true
  | some tc =>
    match type_from_ast schema tc with
    | none => false
    | some conditional_type =>
      if conditional_type == type_ then true
      else
        match conditional_type with
        | .interface n poss => is_possible_type (.interface n poss) type_
        | .union n poss => is_possible_type (.union n poss) type_
        | _ => false

/-- `get_field_entry_key`: the alias if present, else the field name. -/
def get_field_entry_key (aliasName : Option String) (name : String) : String :=
  aliasName.getD name

/-- `fields[name].append(selection)` on the `defaultdict(list)` threaded
through the collection: append to an existing key in place, else add the
key at the end. -/
def fieldsAppend (fields : List (String × List Selection)) (key : String)
    (node : Selection) : List (String × List Selection) :=
  if fields.any (fun p => p.1 == key) then
    fields.map (fun p => if p.1 == key then (p.1, p.2 ++ [node]) else p)
  else fields ++ [(key, [node])]

/-- `ctx.fragments.get(name)`. -/
def dictGetFrag (m : List (String × FragmentDef)) (k : String) :
    Option FragmentDef :=
  (m.find? (fun q => q.1 == k)).map Prod.snd

/-- Number of fragment names not yet in the visited set: the component of
the termination measure that shrinks when a spread is entered. -/
def unvisitedFragmentCount (fragments : List (String × FragmentDef))
    (visited : List String) : Nat :=
  ((fragments.map Prod.fst).filter (fun n => decide (n ∉ visited))).length

theorem length_filter_mono (l : List String) (p q : String → Bool)
    (h : ∀ a ∈ l, q a = true → p a = true) :
    (l.filter q).length ≤ (l.filter p).length := by
  induction l with
  | nil => simp
  | cons a rest ih =>
    have ih2 := ih (fun x hx => h x (List.mem_cons_of_mem _ hx))
    by_cases hq : q a = true
    · rw [List.filter_cons_of_pos hq,
        List.filter_cons_of_pos (h a (List.mem_cons_self _ _) hq)]
      simpa using ih2
    · rw [List.filter_cons_of_neg (by simpa using hq)]
      cases hp : p a
      · rw [List.filter_cons_of_neg (by simp [hp])]
        exact ih2
      · rw [List.filter_cons_of_pos (by simp [hp])]
        exact le_trans ih2 (by simp)

theorem unvisited_le_of_extension (fragments : List (String × FragmentDef))
    {v1 v2 : List String} (h : v1 <+: v2) :
    unvisitedFragmentCount fragments v2 ≤ unvisitedFragmentCount fragments v1 := by
  apply length_filter_mono
  intro a _ ha
  have h2 := of_decide_eq_true ha
  exact decide_eq_true (fun hm => h2 (h.subset hm))

theorem length_filter_insert_lt :
    ∀ (l : List String) (visited : List String) (x : String),
    x ∈ l → x ∉ visited →
    (l.filter (fun n => decide (n ∉ visited ++ [x]))).length <
    (l.filter (fun n => decide (n ∉ visited))).length := by
  intro l
  induction l with
  | nil => intro visited x hx; cases hx
  | cons a rest ih =>
    intro visited x hx hnv
    have hmono : (rest.filter (fun n => decide (n ∉ visited ++ [x]))).length ≤
        (rest.filter (fun n => decide (n ∉ visited))).length := by
      apply length_filter_mono
      intro b _ hb
      have hb2 := of_decide_eq_true hb
      exact decide_eq_true (fun hm => hb2 (List.mem_append.2 (.inl hm)))
    rcases List.mem_cons.1 hx with rfl | hxr
    · rw [List.filter_cons_of_neg (by simp),
        List.filter_cons_of_pos (by exact decide_eq_true hnv)]
      simpa using Nat.lt_succ_of_le hmono
    · by_cases ha : a ∈ visited ++ [x]
      · rw [List.filter_cons_of_neg (by simp [ha])]
        by_cases ha2 : a ∈ visited
        · rw [List.filter_cons_of_neg (by simp [ha2])]
          exact ih visited x hxr hnv
        · rw [List.filter_cons_of_pos (by exact decide_eq_true ha2)]
          exact Nat.lt_succ_of_le hmono
      · have ha2 : a ∉ visited := fun hm => ha (List.mem_append.2 (.inl hm))
        rw [List.filter_cons_of_pos (by exact decide_eq_true ha),
          List.filter_cons_of_pos (by exact decide_eq_true ha2)]
        simpa using ih visited x hxr hnv

theorem unvisited_lt_insert (fragments : List (String × FragmentDef))
    (visited : List String) (x : String)
    (hx : x ∈ fragments.map Prod.fst) (hnv : x ∉ visited) :
    unvisitedFragmentCount fragments (visited ++ [x]) <
    unvisitedFragmentCount fragments visited :=
  length_filter_insert_lt _ _ _ hx hnv

theorem dictGetFrag_isSome_mem_keys {m : List (String × FragmentDef)}
    {k : String} (h : (dictGetFrag m k).isSome = true) :
    k ∈ m.map Prod.fst := by
  unfold dictGetFrag at h
  cases hf : m.find? (fun q => q.1 == k) with
  | none => rw [hf] at h; cases h
  | some p =>
    have hm := List.mem_of_find?_eq_some hf
    have he2 : p.1 = k := by simpa using List.find?_some hf
    exact he2 ▸ List.mem_map.2 ⟨p, hm, rfl⟩

theorem lexNat_left {a1 a2 b1 b2 : Nat} (h : a1 < a2) :
    Prod.Lex (· < ·) (· < ·) (a1, b1) (a2, b2) :=
  Prod.Lex.left _ _ h

theorem lexNat_le_lt {a1 a2 b1 b2 : Nat} (h1 : a1 ≤ a2) (h2 : b1 < b2) :
    Prod.Lex (· < ·) (· < ·) (a1, b1) (a2, b2) := by
  rcases Nat.lt_or_ge a1 a2 with h | h
  · exact Prod.Lex.left _ _ h
  · have he : a1 = a2 := Nat.le_antisymm h1 h
    subst he
    exact Prod.Lex.right _ h2

theorem sizeOf_tail_lt (s : Selection) (rest : List Selection) :
    sizeOf rest < sizeOf (s :: rest) := by
  simp only [List.cons.sizeOf_spec]
  omega

theorem sizeOf_inline_subsels_lt (tc : Option String)
    (directives : List DirectiveNode) (subsels rest : List Selection) :
    sizeOf subsels < sizeOf (Selection.inlineFragment tc directives subsels :: rest) := by
  simp only [List.cons.sizeOf_spec, Selection.inlineFragment.sizeOf_spec]
  omega

/-- `collect_fields` (the recursion-instrumented core): walk the
selections in document order; a field passing its directives is appended
under its response key; an inline fragment passing directives and type
condition recursively merges its sub-selections; a fragment spread that is
unvisited and passes its own directives is marked visited, its fragment
fetched from the context's table — and `fragment.directives` is read
BEFORE the `if not fragment` guard, so a missing fragment raises
`AttributeError` — then, if the fragment passes directives and condition,
its sub-selections are recursively merged.  The visited set is returned
(Python mutates it in place) together with a proof that it only grew,
which drives the termination measure. -/
def collectFieldsAux (ctx : ExecutionContext) (runtime_type : GType) :
    (selections : List Selection) →
    (fields : List (String × List Selection)) →
    (prev_fragment_names : List String) →
    Except PyError ((List (String × List Selection)) ×
      { v : List String // prev_fragment_names <+: v })
  | [], fields, prev => .ok (fields, ⟨prev, List.prefix_refl _⟩)
  | .field aliasName name directives :: rest, fields, prev =>
    if should_include_node ctx.vars directives = false then
      collectFieldsAux ctx runtime_type rest fields prev
    else
      collectFieldsAux ctx runtime_type rest
        (fieldsAppend fields (get_field_entry_key aliasName name)
          (.field aliasName name directives)) prev
  | .inlineFragment tc directives subsels :: rest, fields, prev =>
    if should_include_node ctx.vars directives = false ∨
       does_fragment_condition_match ctx.schema tc runtime_type = false then
      collectFieldsAux ctx runtime_type rest fields prev
    else
      match collectFieldsAux ctx runtime_type subsels fields prev with
      | .error e => .error e
      | .ok (f2, v2) =>
        match collectFieldsAux ctx runtime_type rest f2 v2.1 with
        | .error e => .error e
        | .ok (f3, v3) => .ok (f3, ⟨v3.1, v2.2.trans v3.2⟩)
  | .fragmentSpread frag_name directives :: rest, fields, prev =>
    if hskip : frag_name ∈ prev ∨ should_include_node ctx.vars directives = false then
      collectFieldsAux ctx runtime_type rest fields prev
    else
      if hf : (dictGetFrag ctx.fragments frag_name).isSome then
        let fragment := (dictGetFrag ctx.fragments frag_name).get hf
        if should_include_node ctx.vars fragment.directives = false ∨
           does_fragment_condition_match ctx.schema fragment.type_condition
             runtime_type = false then
          match collectFieldsAux ctx runtime_type rest fields (prev ++ [frag_name]) with
          | .error e => .error e
          | .ok (f2, v2) =>
            .ok (f2, ⟨v2.1, (List.prefix_append prev [frag_name]).trans v2.2⟩)
        else
          match collectFieldsAux ctx runtime_type fragment.selections fields
              (prev ++ [frag_name]) with
          | .error e => .error e
          | .ok (f2, v2) =>
            match collectFieldsAux ctx runtime_type rest f2 v2.1 with
            | .error e => .error e
            | .ok (f3, v3) =>
              .ok (f3, ⟨v3.1,
                ((List.prefix_append prev [frag_name]).trans v2.2).trans v3.2⟩)
      else
        .error (.attributeError "NoneType object has no attribute directives")
termination_by sels fields prev =>
  (unvisitedFragmentCount ctx.fragments prev, sizeOf sels)
decreasing_by
  · exact lexNat_le_lt (le_refl _) (sizeOf_tail_lt _ _)
  · exact lexNat_le_lt (le_refl _) (sizeOf_tail_lt _ _)
  · exact lexNat_le_lt (le_refl _) (sizeOf_tail_lt _ _)
  · exact lexNat_le_lt (le_refl _) (sizeOf_inline_subsels_lt _ _ _ _)
  · exact lexNat_le_lt (unvisited_le_of_extension _ v2.2) (sizeOf_tail_lt _ _)
  · exact lexNat_le_lt (le_refl _) (sizeOf_tail_lt _ _)
  · exact lexNat_left (unvisited_lt_insert _ _ _
      (dictGetFrag_isSome_mem_keys hf) (fun hm => hskip (.inl hm)))
  · exact lexNat_left (unvisited_lt_insert _ _ _
      (dictGetFrag_isSome_mem_keys hf) (fun hm => hskip (.inl hm)))
  · exact lexNat_left (lt_of_le_of_lt (unvisited_le_of_extension _ v2.2)
      (unvisited_lt_insert _ _ _
        (dictGetFrag_isSome_mem_keys hf) (fun hm => hskip (.inl hm))))

/-- `collect_fields` as the source exposes it: the collected mapping and
the final visited-name set. -/
def collect_fields (ctx : ExecutionContext) (runtime_type : GType)
    (selection_set : List Selection)
    (fields : List (String × List Selection))
    (prev_fragment_names : List String) :
    Except PyError ((List (String × List Selection)) × List String) :=
  (collectFieldsAux ctx runtime_type selection_set fields prev_fragment_names).map
    (fun p => (p.1, p.2.1))

/-- C1 (code bug): with an empty fragment table, collecting a selection
set consisting of one spread of the missing fragment `F` raises
`AttributeError` — `frag_name` passes the visited/directive checks, is
added to the visited set, `ctx.fragments.get` returns `None`, and the
source reads `fragment.directives` one line BEFORE its own
`if not fragment` guard.  The claim (and the spec) say the spread should
be skipped and collection continue; the guard in the code shows the same
intent, so the dereference is a slip in the code. -/
theorem claim_C1 :
    collect_fields ⟨[], [], .vNone, ⟨none, []⟩, [], [], .vNone, []⟩
      (.object "Query") [.fragmentSpread "F" []] [] [] =
      .error (.attributeError "NoneType object has no attribute directives") := by
  unfold collect_fields
  rw [collectFieldsAux]
  rw [dif_neg (by simp [should_include_node])]
  rw [dif_neg (by simp [dictGetFrag])]
  rfl

/-! ## Relay global ids (`graphql_relay/node/node.py`,
`graphql_relay/utils.py`)

Python strings are modelled here as lists of Unicode code points and bytes
as lists of naturals below 256, so that the byte-level behaviour of
`base64.b64encode` / `b64decode` and of UTF-8 encoding is explicit. -/

/-- The base64 alphabet: sextet to ASCII code. -/
def b64chr (n : Nat) : Nat :=
  if n < 26 then 65 + n
  else if n < 52 then 97 + (n - 26)
  else if n < 62 then 48 + (n - 52)
  else if n = 62 then 43
  else 47

/-- Inverse of the base64 alphabet on ASCII codes of alphabet characters. -/
def b64inv (c : Nat) : Nat :=
  if 65 ≤ c ∧ c ≤ 90 then c - 65
  else if 97 ≤ c ∧ c ≤ 122 then 26 + (c - 97)
  else if 48 ≤ c ∧ c ≤ 57 then 52 + (c - 48)
  else if c = 43 then 62
  else 63

/-- `base64.b64encode` on bytes: three input bytes become four alphabet
characters; a final group of one or two bytes is padded with `=` (61). -/
def b64encodeBytes : List Nat → List Nat
  | [] => []
  | [a] => [b64chr (a / 4), b64chr (a % 4 * 16), 61, 61]
  | [a, b] => [b64chr (a / 4), b64chr (a % 4 * 16 + b / 16), b64chr (b % 16 * 4), 61]
  | a :: b :: c :: rest =>
      b64chr (a / 4) :: b64chr (a % 4 * 16 + b / 16) ::
      b64chr (b % 16 * 4 + c / 64) :: b64chr (c % 64) :: b64encodeBytes rest

/-- `base64.b64decode` on well-formed base64 byte strings (groups of four
characters, `=`-padding in the last group only). -/
def b64decodeBytes : List Nat → List Nat
  | c0 :: c1 :: c2 :: c3 :: rest =>
      if c2 = 61 then [b64inv c0 * 4 + b64inv c1 / 16]
      else if c3 = 61 then
        [b64inv c0 * 4 + b64inv c1 / 16, b64inv c1 % 16 * 16 + b64inv c2 / 4]
      else
        (b64inv c0 * 4 + b64inv c1 / 16) ::
        (b64inv c1 % 16 * 16 + b64inv c2 / 4) ::
        (b64inv c2 % 4 * 64 + b64inv c3) :: b64decodeBytes rest
  | _ => []

/-- UTF-8 encoding of one code point (1 to 4 bytes). -/
def utf8EncodeChar (n : Nat) : List Nat :=
  if n < 128 then [n]
  else if n < 2048 then [192 + n / 64, 128 + n % 64]
  else if n < 65536 then [224 + n / 4096, 128 + n / 64 % 64, 128 + n % 64]
  else [240 + n / 262144, 128 + n / 4096 % 64, 128 + n / 64 % 64, 128 + n % 64]

/-- `bytes(s, 'utf-8')`. -/
def utf8Encode (s : List Nat) : List Nat := (s.map utf8EncodeChar).flatten

/-- Decoding of the first UTF-8 sequence of a byte string: the decoded
code point and the remaining bytes; `none` on a truncated input. -/
def utf8DecodeOne : List Nat → Option (Nat × List Nat)
  | b0 :: b1 :: b2 :: b3 :: rest =>
      if b0 < 128 then some (b0, b1 :: b2 :: b3 :: rest)
      else if b0 < 224 then some ((b0 - 192) * 64 + (b1 - 128), b2 :: b3 :: rest)
      else if b0 < 240 then
        some ((b0 - 224) * 4096 + (b1 - 128) * 64 + (b2 - 128), b3 :: rest)
      else
        some ((b0 - 240) * 262144 + (b1 - 128) * 4096 + (b2 - 128) * 64 +
          (b3 - 128), rest)
  | [b0, b1, b2] =>
      if b0 < 128 then some (b0, [b1, b2])
      else if b0 < 224 then some ((b0 - 192) * 64 + (b1 - 128), [b2])
      else if b0 < 240 then
        some ((b0 - 224) * 4096 + (b1 - 128) * 64 + (b2 - 128), [])
      else none
  | [b0, b1] =>
      if b0 < 128 then some (b0, [b1])
      else if b0 < 224 then some ((b0 - 192) * 64 + (b1 - 128), [])
      else none
  | [b0] => if b0 < 128 then some (b0, []) else none
  | [] => none

theorem utf8DecodeOne_length :
    ∀ (l : List Nat) (c : Nat) (rest : List Nat),
    utf8DecodeOne l = some (c, rest) → rest.length < l.length := by
  intro l c rest h
  match l with
  | [] => cases h
  | [b0] =>
    simp only [utf8DecodeOne] at h
    split_ifs at h <;>
      (injection h with h2; injection h2 with ha hb; subst hb;
       simp only [List.length_cons, List.length_nil]; omega)
  | [b0, b1] =>
    simp only [utf8DecodeOne] at h
    split_ifs at h <;>
      (injection h with h2; injection h2 with ha hb; subst hb;
       simp only [List.length_cons, List.length_nil]; omega)
  | [b0, b1, b2] =>
    simp only [utf8DecodeOne] at h
    split_ifs at h <;>
      (injection h with h2; injection h2 with ha hb; subst hb;
       simp only [List.length_cons, List.length_nil]; omega)
  | b0 :: b1 :: b2 :: b3 :: r =>
    simp only [utf8DecodeOne] at h
    split_ifs at h <;>
      (injection h with h2; injection h2 with ha hb; subst hb;
       simp only [List.length_cons, List.length_nil]; omega)

/-- `bs.decode('utf-8')` on well-formed UTF-8: decode one sequence at a
time. -/
def utf8Decode (l : List Nat) : List Nat :=
  match h : utf8DecodeOne l with
  | some (c, rest) => c :: utf8Decode rest
  | none => []
termination_by l.length
decreasing_by exact utf8DecodeOne_length l c rest h

theorem utf8Decode_eq_some {l : List Nat} {c : Nat} {rest : List Nat}
    (h : utf8DecodeOne l = some (c, rest)) :
    utf8Decode l = c :: utf8Decode rest := by
  rw [utf8Decode]
  split
  · next c2 rest2 h2 =>
    rw [h] at h2
    injection h2 with h3
    injection h3 with ha hb
    rw [← ha, ← hb]
  · next h2 => rw [h] at h2; cases h2

theorem utf8Decode_eq_none {l : List Nat} (h : utf8DecodeOne l = none) :
    utf8Decode l = [] := by
  rw [utf8Decode]
  split
  · next c2 rest2 h2 => rw [h] at h2; cases h2
  · rfl

/-- `graphql_relay.utils.base64`:
`b64encode(bytes(s, 'utf-8')).decode('utf-8')`. -/
def base64 (s : List Nat) : List Nat :=
  utf8Decode (b64encodeBytes (utf8Encode s))

/-- `graphql_relay.utils.unbase64`: `b64decode(s).decode('utf-8')` (the
str argument is ASCII-encoded to bytes on the way in). -/
def unbase64 (s : List Nat) : List Nat :=
  utf8Decode (b64decodeBytes (utf8Encode s))

/-- The result object of `from_global_id`. -/
structure ResolvedGlobalId where
  type : List Nat
  id : List Nat
deriving DecidableEq, Repr

/-- `to_global_id`: `base64(':'.join([type, str(id)]))` — the id argument
is taken here already in its `str` form. -/
def to_global_id (type_name strId : List Nat) : List Nat :=
  base64 (type_name ++ 58 :: strId)

/-- Python `s.split(sep, 1)` when the separator occurs: the part before
the first separator and everything after it. `none` when absent. -/
def pySplit1 (sep : Nat) : List Nat → Option (List Nat × List Nat)
  | [] => none
  | c :: rest =>
    if c = sep then some ([], rest)
    else (pySplit1 sep rest).map (fun p => (c :: p.1, p.2))

/-- `from_global_id`: unbase64, then `_type, _id = unbased.split(':', 1)`
— unpacking raises `ValueError` when no colon is present. -/
def from_global_id (global_id : List Nat) : Except PyError ResolvedGlobalId :=
  match pySplit1 58 (unbase64 global_id) with
  | some (t, i) => .ok ⟨t, i⟩
  | none => .error (.valueError "need more than 1 value to unpack")

theorem b64chr_lt (n : Nat) : b64chr n < 128 := by
  unfold b64chr
  split_ifs <;> omega

theorem b64chr_ne_pad (n : Nat) : b64chr n ≠ 61 := by
  unfold b64chr
  split_ifs <;> omega

theorem b64inv_b64chr (n : Nat) (h : n < 64) : b64inv (b64chr n) = n := by
  unfold b64chr b64inv
  split_ifs <;> omega

theorem b64decode_b64encode : ∀ bs : List Nat, (∀ b ∈ bs, b < 256) →
    b64decodeBytes (b64encodeBytes bs) = bs
  | [], _ => rfl
  | [a], h => by
    have ha : a < 256 := h a (by simp)
    have h1 : b64inv (b64chr (a / 4)) = a / 4 := b64inv_b64chr _ (by omega)
    have h2 : b64inv (b64chr (a % 4 * 16)) = a % 4 * 16 := b64inv_b64chr _ (by omega)
    rw [show b64encodeBytes [a] =
      [b64chr (a / 4), b64chr (a % 4 * 16), 61, 61] from rfl]
    rw [b64decodeBytes.eq_1, if_pos rfl, h1, h2]
    simp only [List.cons.injEq, and_true]
    omega
  | [a, b], h => by
    have ha : a < 256 := h a (by simp)
    have hb : b < 256 := h b (by simp)
    have h1 : b64inv (b64chr (a / 4)) = a / 4 := b64inv_b64chr _ (by omega)
    have h2 : b64inv (b64chr (a % 4 * 16 + b / 16)) = a % 4 * 16 + b / 16 :=
      b64inv_b64chr _ (by omega)
    have h3 : b64inv (b64chr (b % 16 * 4)) = b % 16 * 4 := b64inv_b64chr _ (by omega)
    have hne : b64chr (b % 16 * 4) ≠ 61 := b64chr_ne_pad _
    rw [show b64encodeBytes [a, b] =
      [b64chr (a / 4), b64chr (a % 4 * 16 + b / 16), b64chr (b % 16 * 4), 61] from rfl]
    rw [b64decodeBytes.eq_1, if_neg hne, if_pos rfl, h1, h2, h3]
    simp only [List.cons.injEq, and_true]
    omega
  | a :: b :: c :: rest, h => by
    have ha : a < 256 := h a (by simp)
    have hb : b < 256 := h b (by simp)
    have hc : c < 256 := h c (by simp)
    have h1 : b64inv (b64chr (a / 4)) = a / 4 := b64inv_b64chr _ (by omega)
    have h2 : b64inv (b64chr (a % 4 * 16 + b / 16)) = a % 4 * 16 + b / 16 :=
      b64inv_b64chr _ (by omega)
    have h3 : b64inv (b64chr (b % 16 * 4 + c / 64)) = b % 16 * 4 + c / 64 :=
      b64inv_b64chr _ (by omega)
    have h4 : b64inv (b64chr (c % 64)) = c % 64 := b64inv_b64chr _ (by omega)
    have hne2 : b64chr (b % 16 * 4 + c / 64) ≠ 61 := b64chr_ne_pad _
    have hne3 : b64chr (c % 64) ≠ 61 := b64chr_ne_pad _
    have ih := b64decode_b64encode rest (fun x hx => h x (by simp [hx]))
    rw [show b64encodeBytes (a :: b :: c :: rest) =
      b64chr (a / 4) :: b64chr (a % 4 * 16 + b / 16) ::
      b64chr (b % 16 * 4 + c / 64) :: b64chr (c % 64) :: b64encodeBytes rest from rfl]
    rw [b64decodeBytes.eq_1, if_neg hne2, if_neg hne3, h1, h2, h3, h4, ih]
    simp only [List.cons.injEq, and_true]
    refine ⟨by omega, by omega, by omega⟩

theorem utf8DecodeOne_encodeChar (n : Nat) (h : n < 1114112) (tail : List Nat) :
    utf8DecodeOne (utf8EncodeChar n ++ tail) = some (n, tail) := by
  unfold utf8EncodeChar
  split_ifs with h1 h2 h3
  · rcases tail with _ | ⟨t1, _ | ⟨t2, _ | ⟨t3, r⟩⟩⟩ <;>
      simp [utf8DecodeOne, h1]
  · have hb : ¬(192 + n / 64 < 128) := by omega
    have hb2 : 192 + n / 64 < 224 := by omega
    rcases tail with _ | ⟨t1, _ | ⟨t2, r⟩⟩ <;>
      (simp [utf8DecodeOne, hb, hb2]; omega)
  · have hb : ¬(224 + n / 4096 < 128) := by omega
    have hb2 : ¬(224 + n / 4096 < 224) := by omega
    have hb3 : 224 + n / 4096 < 240 := by omega
    rcases tail with _ | ⟨t1, r⟩ <;>
      (simp [utf8DecodeOne, hb, hb2, hb3]; omega)
  · have hb : ¬(240 + n / 262144 < 128) := by omega
    have hb2 : ¬(240 + n / 262144 < 224) := by omega
    have hb3 : ¬(240 + n / 262144 < 240) := by omega
    simp only [List.cons_append, List.nil_append, utf8DecodeOne,
      if_neg hb, if_neg hb2, if_neg hb3]
    simp only [Option.some.injEq, Prod.mk.injEq, and_true]
    omega

theorem utf8Decode_utf8Encode : ∀ s : List Nat, (∀ n ∈ s, n < 1114112) →
    utf8Decode (utf8Encode s) = s := by
  intro s
  induction s with
  | nil =>
    intro _
    rw [show utf8Encode [] = [] from rfl, @utf8Decode_eq_none [] rfl]
  | cons n rest ih =>
    intro h
    have hn : n < 1114112 := h n (by simp)
    have hrest := ih (fun x hx => h x (by simp [hx]))
    show utf8Decode ((List.map utf8EncodeChar (n :: rest)).flatten) = n :: rest
    simp only [List.map_cons, List.flatten_cons]
    rw [utf8Decode_eq_some (utf8DecodeOne_encodeChar n hn _)]
    rw [show (List.map utf8EncodeChar rest).flatten = utf8Encode rest from rfl]
    rw [hrest]

theorem utf8Decode_ascii : ∀ l : List Nat, (∀ b ∈ l, b < 128) →
    utf8Decode l = l := by
  intro l
  induction l with
  | nil => intro _; rw [@utf8Decode_eq_none [] rfl]
  | cons b rest ih =>
    intro h
    have hb : b < 128 := h b (by simp)
    have hone := utf8DecodeOne_encodeChar b (by omega) rest
    rw [show utf8EncodeChar b = [b] by unfold utf8EncodeChar; rw [if_pos hb]] at hone
    simp only [List.cons_append, List.nil_append] at hone
    rw [utf8Decode_eq_some hone, ih (fun x hx => h x (by simp [hx]))]

theorem utf8Encode_ascii : ∀ l : List Nat, (∀ b ∈ l, b < 128) →
    utf8Encode l = l := by
  intro l
  induction l with
  | nil => intro _; rfl
  | cons b rest ih =>
    intro h
    have hb : b < 128 := h b (by simp)
    show (List.map utf8EncodeChar (b :: rest)).flatten = b :: rest
    simp only [List.map_cons, List.flatten_cons]
    rw [show utf8EncodeChar b = [b] by unfold utf8EncodeChar; rw [if_pos hb]]
    rw [show (List.map utf8EncodeChar rest).flatten = utf8Encode rest from rfl]
    rw [ih (fun x hx => h x (by simp [hx]))]
    rfl

theorem utf8EncodeChar_bytes_lt (n : Nat) (h : n < 1114112) :
    ∀ b ∈ utf8EncodeChar n, b < 256 := by
  intro b hb
  unfold utf8EncodeChar at hb
  split_ifs at hb <;> simp at hb
  · omega
  · rcases hb with rfl | rfl <;> omega
  · rcases hb with rfl | rfl | rfl <;> omega
  · rcases hb with rfl | rfl | rfl | rfl <;> omega

theorem utf8Encode_bytes_lt (s : List Nat) (h : ∀ n ∈ s, n < 1114112) :
    ∀ b ∈ utf8Encode s, b < 256 := by
  intro b hb
  unfold utf8Encode at hb
  rcases List.mem_flatten.1 hb with ⟨l, hl, hbl⟩
  rcases List.mem_map.1 hl with ⟨n, hn, rfl⟩
  exact utf8EncodeChar_bytes_lt n (h n hn) b hbl

theorem b64encodeBytes_ascii : ∀ bs : List Nat, ∀ c ∈ b64encodeBytes bs, c < 128
  | [], _, hc => by cases hc
  | [a], c, hc => by
    simp [b64encodeBytes] at hc
    rcases hc with rfl | rfl | rfl
    · exact b64chr_lt _
    · exact b64chr_lt _
    · omega
  | [a, b], c, hc => by
    simp [b64encodeBytes] at hc
    rcases hc with rfl | rfl | rfl | rfl
    · exact b64chr_lt _
    · exact b64chr_lt _
    · exact b64chr_lt _
    · omega
  | a :: b :: d :: rest, c, hc => by
    simp only [b64encodeBytes, List.mem_cons] at hc
    rcases hc with rfl | rfl | rfl | rfl | hc
    · exact b64chr_lt _
    · exact b64chr_lt _
    · exact b64chr_lt _
    · exact b64chr_lt _
    · exact b64encodeBytes_ascii rest c hc

theorem pySplit1_append (t i : List Nat) (h : 58 ∉ t) :
    pySplit1 58 (t ++ 58 :: i) = some (t, i) := by
  induction t with
  | nil => simp [pySplit1]
  | cons c rest ih =>
    have hc : c ≠ 58 := fun hc => h (hc ▸ List.mem_cons_self _ _)
    have hrest : 58 ∉ rest := fun hr => h (List.mem_cons_of_mem _ hr)
    rw [List.cons_append, pySplit1, if_neg hc, ih hrest]
    rfl

theorem unbase64_base64 (s : List Nat) (h : ∀ n ∈ s, n < 1114112) :
    unbase64 (base64 s) = s := by
  unfold base64 unbase64
  have henc : ∀ c ∈ b64encodeBytes (utf8Encode s), c < 128 :=
    b64encodeBytes_ascii _
  rw [utf8Decode_ascii _ henc, utf8Encode_ascii _ henc]
  rw [b64decode_b64encode _ (utf8Encode_bytes_lt s h)]
  exact utf8Decode_utf8Encode s h

/-- C7: for every type name (as a code-point string) containing no colon
and every id string, `from_global_id (to_global_id type, id)` recovers
exactly the type name and the id — through UTF-8 encoding, base64, the
base64 inverse, UTF-8 decoding and the single-split on the first colon. -/
theorem claim_C7 (type_name strId : List Nat)
    (ht : ∀ n ∈ type_name, n < 1114112) (hi : ∀ n ∈ strId, n < 1114112)
    (hc : 58 ∉ type_name) :
    from_global_id (to_global_id type_name strId) = .ok ⟨type_name, strId⟩ := by
  unfold from_global_id to_global_id
  have hall : ∀ n ∈ type_name ++ 58 :: strId, n < 1114112 := by
    intro n hn
    rcases List.mem_append.1 hn with hn | hn
    · exact ht n hn
    · rcases List.mem_cons.1 hn with rfl | hn
      · omega
      · exact hi n hn
  rw [unbase64_base64 _ hall, pySplit1_append _ _ hc]

/-- Witness for C7 on the concrete type name `User` and id `42` (as code
points): the round trip recovers both. -/
theorem claim_C7_witness :
    from_global_id (to_global_id [85, 115, 101, 114] [52, 50]) =
      .ok ⟨[85, 115, 101, 114], [52, 50]⟩ :=
  claim_C7 [85, 115, 101, 114] [52, 50] (by decide) (by decide) (by decide)

end GraphQLSpec
